import Mathlib

/-
Verification of the content-protection core of the secure-assignment-evaluator
repository: the chunker and retriever (text_chunker.py), the stateful
guardrail and answer post-processor (secure_qa.py), and the vault
(encryption.py).  Python functions are embedded as executable Lean
definitions; external capabilities (the NLTK sentence tokenizer, the OpenAI
generation call, and the cryptography library) are parameters or contract
models, as noted at each definition.
-/

set_option maxRecDepth 100000

/-! ## Basic character helpers -/

/-- Python regex class backslash-s restricted to ASCII: space, tab, newline,
carriage return, vertical tab (11) and form feed (12).  Python `str.strip()`
strips the same set. -/
def wsChar (c : Char) : Bool :=
  c = ' ' || c = '\t' || c = '\n' || c = '\r' || c.toNat = 11 || c.toNat = 12

/-- Python regex class backslash-w restricted to ASCII: letters, digits and
underscore. -/
def isWordChar (c : Char) : Bool :=
  c.isAlphanum || c = '_'

/-- Model of Python `str.lower()` (ASCII case mapping). -/
def strLower (s : String) : String :=
  (s.data.map Char.toLower).asString

/-- Boolean list-prefix test, used for literal matching inside scanners. -/
def isPre : List Char → List Char → Bool
  | [], _ => true
  | _ :: _, [] => false
  | a :: as, b :: bs => a == b && isPre as bs

/-- Boolean substring test: Python `needle in hay` for strings. -/
def hasSub (needle hay : List Char) : Bool :=
  hay.tails.any (fun t => isPre needle t)

/-! ## Answer post-processor (secure_qa.py lines 102-108)

The Python code finds every match of the regex `"([^"]{150,})"` in the
answer with `re.findall` and then, for each matched content `q` in order,
runs `answer.replace(chr(34) ++ q ++ chr(34), chr(34) ++ q[:147] ++ "..." ++ chr(34))`,
which replaces every non-overlapping occurrence left to right. -/

/-- MAX_QUOTE_LENGTH from secure_qa.py line 11. -/
def MAX_QUOTE_LENGTH : Nat := 150

/-- MAX_CONSECUTIVE_QUOTES from secure_qa.py line 12. -/
def MAX_CONSECUTIVE_QUOTES : Nat := 3

/-- One-pass scanner equivalent to `re.findall` of the pattern
`"([^"]{150,})"`: in mode `false` it looks for an opening quote; in mode
`true` it accumulates the run of non-quote characters after one (reversed in
`acc`).  At a closing quote, a run of length at least `MAX_QUOTE_LENGTH` is a
match and scanning resumes after the closing quote; a shorter run is not a
match and, exactly as the regex engine restarting at the next position would,
the closing quote becomes the next candidate opening quote. -/
def scanQuotes : Bool → List Char → List Char → List (List Char)
  | _, [], _ => []
  | false, c :: rest, _ =>
    if c = '"' then scanQuotes true rest [] else scanQuotes false rest []
  | true, c :: rest, acc =>
    if c = '"' then
      if MAX_QUOTE_LENGTH ≤ acc.length then acc.reverse :: scanQuotes false rest []
      else scanQuotes true rest []
    else scanQuotes true rest (c :: acc)

/-- The list of long quoted spans of `s`, in match order
(`long_quotes` in secure_qa.py line 104). -/
def findLongQuotes (s : List Char) : List (List Char) :=
  scanQuotes false s []

/-- Fuel-indexed core of Python `str.replace`: replaces every
non-overlapping occurrence of `pat` left to right, continuing after each
replacement.  Any fuel at least the length of the input gives the replace-all
behaviour. -/
def replGo (pat rep : List Char) : Nat → List Char → List Char
  | _, [] => []
  | 0, s => s
  | f + 1, c :: rest =>
    if isPre pat (c :: rest) then rep ++ replGo pat rep f ((c :: rest).drop pat.length)
    else c :: replGo pat rep f rest

/-- Python `s.replace(pat, rep)` (replace all occurrences, left to right,
non-overlapping). -/
def replaceAll (s pat rep : List Char) : List Char :=
  replGo pat rep s.length s

/-- Truncated content of an over-long quote:
`long_quote[:MAX_QUOTE_LENGTH-3] + "..."` (secure_qa.py line 107). -/
def truncQuote (q : List Char) : List Char :=
  q.take (MAX_QUOTE_LENGTH - 3) ++ ['.', '.', '.']

/-- The quote-length post-processing of secure_qa.py lines 102-108 on
character lists: find all long quoted spans, then sequentially replace each
quoted span by its truncated form. -/
def sanitizeCore (s : List Char) : List Char :=
  (findLongQuotes s).foldl
    (fun acc q => replaceAll acc ('"' :: q ++ ['"']) ('"' :: truncQuote q ++ ['"'])) s

/-- String-level wrapper of the answer post-processor. -/
def sanitize (s : String) : String :=
  (sanitizeCore s.data).asString

/-! ## Regex engine for the extraction-intent patterns (secure_qa.py lines 32-39)

The six patterns use only literals, alternation groups, optional groups,
the classes backslash-s and dot, and the quantifiers + and *?.  They are
embedded as abstract syntax trees and run by a backtracking acceptor;
`rsearch` is `re.search` (a match starting at any position).  For a Boolean
match-exists semantics a lazy `*?` is equivalent to a greedy `*`. -/

inductive Rgx where
  | eps
  | cls (p : Char → Bool)
  | seq (a b : Rgx)
  | alt (a b : Rgx)
  | starCls (p : Char → Bool)

/-- Acceptor for a starred character class, trying every split point. -/
def acceptStar (p : Char → Bool) (k : List Char → Bool) : List Char → Bool
  | [] => k []
  | c :: rest => k (c :: rest) || (p c && acceptStar p k rest)

/-- Backtracking acceptor in continuation style: `accept r s k` is true iff
some prefix of `s` matches `r` and `k` accepts the corresponding suffix. -/
def accept : Rgx → List Char → (List Char → Bool) → Bool
  | .eps, s, k => k s
  | .cls p, s, k =>
    match s with
    | [] => false
    | c :: rest => p c && k rest
  | .seq a b, s, k => accept a s (fun r => accept b r k)
  | .alt a b, s, k => accept a s k || accept b s k
  | .starCls p, s, k => acceptStar p k s

/-- Python `re.search`: the pattern matches starting at some position. -/
def rsearch (r : Rgx) (s : List Char) : Bool :=
  s.tails.any (fun t => accept r t (fun _ => true))

/-- Literal character. -/
def rlit (c : Char) : Rgx := .cls (fun x => x == c)

/-- Literal word. -/
def rstr (w : String) : Rgx :=
  w.data.foldr (fun c r => .seq (rlit c) r) .eps

/-- Alternation of a list of regexes (empty alternation never matches). -/
def ralts : List Rgx → Rgx
  | [] => .cls (fun _ => false)
  | [r] => r
  | r :: rs => .alt r (ralts rs)

/-- Sequence of a list of regexes. -/
def rseqs : List Rgx → Rgx
  | [] => .eps
  | [r] => r
  | r :: rs => .seq r (rseqs rs)

/-- Regex backslash-s+ . -/
def rwsPlus : Rgx := .seq (.cls wsChar) (.starCls wsChar)

/-- Optional group, regex `(?:r)?`. -/
def ropt (r : Rgx) : Rgx := .alt r .eps

/-- Regex class `["only-quote-chars']`. -/
def rquoteCls : Rgx := .cls (fun c => c == '"' || c.toNat = 39)

/-- Alternation `(?:text|content|document|assignment|pdf)`. -/
def rContent : Rgx :=
  ralts [rstr "text", rstr "content", rstr "document", rstr "assignment", rstr "pdf"]

/-- Alternation `(?:all|complete|entire|full|whole)`. -/
def rAll : Rgx :=
  ralts [rstr "all", rstr "complete", rstr "entire", rstr "full", rstr "whole"]

/-- Alternation `(?:show|give|provide)`. -/
def rShow : Rgx := ralts [rstr "show", rstr "give", rstr "provide"]

/-- Pattern 1 of secure_qa.py line 33. -/
def extractPat1 : Rgx := rseqs [rstr "extract", rwsPlus, rAll, rwsPlus, rContent]

/-- Pattern 2 of secure_qa.py line 34. -/
def extractPat2 : Rgx :=
  rseqs [rShow, rwsPlus, ropt (ralts [rstr "me", rstr "us"]), rwsPlus, rAll, rwsPlus, rContent]

/-- Pattern 3 of secure_qa.py line 35. -/
def extractPat3 : Rgx :=
  rseqs [ralts [rstr "copy", rstr "paste"], rwsPlus, rAll, rwsPlus, rContent]

/-- Pattern 4 of secure_qa.py line 36. -/
def extractPat4 : Rgx :=
  rseqs [rShow, rwsPlus, ropt (ralts [rstr "me", rstr "us"]), rwsPlus,
    ropt (.seq (rstr "the") rwsPlus),
    ralts [rstr "next", rstr "previous", rstr "following", rstr "remaining", rstr "rest"],
    rwsPlus, ralts [rstr "part", rstr "section", rstr "text", rstr "content"]]

/-- Pattern 5 of secure_qa.py line 37. -/
def extractPat5 : Rgx :=
  rseqs [rstr "continue", rwsPlus,
    ralts [rstr "from",
      rseqs [rstr "where", rwsPlus, rstr "you", rwsPlus, rstr "left", rwsPlus, rstr "off"]]]

/-- Pattern 6 of secure_qa.py line 38. -/
def extractPat6 : Rgx :=
  rseqs [ralts [rstr "what", rstr "show"], rwsPlus,
    ralts [rstr "is", rstr "are", rstr "comes"], rwsPlus,
    ralts [rstr "after", rstr "before"], rwsPlus,
    rquoteCls, .starCls (fun c => c != '\n'), rquoteCls]

/-- The fixed list `extraction_patterns` (secure_qa.py lines 32-39). -/
def extraction_patterns : List Rgx :=
  [extractPat1, extractPat2, extractPat3, extractPat4, extractPat5, extractPat6]

/-- The guard of secure_qa.py line 41:
`any(re.search(pattern, question.lower()) for pattern in extraction_patterns)`. -/
def matchesExtraction (question : String) : Bool :=
  extraction_patterns.any (fun r => rsearch r (strLower question).data)

/-! ## Chunk record and retriever (text_chunker.py) -/

/-- The chunk dictionary built by `chunk_text` (text_chunker.py lines 53-59). -/
structure Chunk where
  text : String
  page : Nat
  start_char : Int
  end_char : Int
  sentences : List String
deriving DecidableEq

/-- Scanner for `re.findall(r"backslash-b backslash-w+ backslash-b", s)`:
the maximal runs of word characters, accumulating the current run reversed
in `acc`. -/
def wordRunsAux : List Char → List Char → List (List Char)
  | [], acc => if acc.isEmpty then [] else [acc.reverse]
  | c :: rest, acc =>
    if isWordChar c then wordRunsAux rest (c :: acc)
    else if acc.isEmpty then wordRunsAux rest []
    else acc.reverse :: wordRunsAux rest []

/-- The word tokens of a string, in order of first appearance. -/
def findWords (s : String) : List (List Char) :=
  wordRunsAux s.data []

/-- Score of one chunk (text_chunker.py line 158): the number of distinct
query words appearing as substrings of the lowercased chunk text.  Python
iterates over `set(...)`; the count over the deduplicated list is the same
number. -/
def chunkScore (query : String) (c : Chunk) : Nat :=
  (findWords (strLower query)).dedup.countP (fun w => hasSub w (strLower c.text).data)

/-- Stable descending insertion of an (index, score) pair: the new element
goes after every element of strictly greater score and before equal-scored
ones that came later in the original list. -/
def insertDesc (x : Nat × Nat) : List (Nat × Nat) → List (Nat × Nat)
  | [] => [x]
  | y :: ys => if x.2 < y.2 then y :: insertDesc x ys else x :: y :: ys

/-- Stable sort by score descending: extensionally the behaviour of Python
`chunk_scores.sort(key=lambda x: x[1], reverse=True)`, which is a stable
descending sort. -/
def sortDesc : List (Nat × Nat) → List (Nat × Nat)
  | [] => []
  | x :: xs => insertDesc x (sortDesc xs)

/-- The scored index list `chunk_scores` of text_chunker.py lines 154-160. -/
def scoredChunks (query : String) (chunks : List Chunk) : List (Nat × Nat) :=
  chunks.enum.map (fun p => (p.1, chunkScore query p.2))

/-- The comprehension `top_chunks` of text_chunker.py line 166: the
positive-score entries of the first `top_k` sorted pairs, mapped back to the
chunks they index. -/
def topChunks (query : String) (chunks : List Chunk) (top_k : Nat) : List Chunk :=
  (((sortDesc (scoredChunks query chunks)).take top_k).filter (fun p => 0 < p.2)).map
    (fun p => chunks.getD p.1 ⟨"", 0, 0, 0, []⟩)

/-- Embedding of `get_relevant_chunks` (text_chunker.py lines 136-172):
score every chunk, sort stably by score descending, keep the positive-score
entries of the first `top_k`, and fall back to the first chunk when nothing
scored. -/
def get_relevant_chunks (query : String) (chunks : List Chunk) (top_k : Nat) : List Chunk :=
  if (topChunks query chunks top_k).isEmpty then
    match chunks with
    | [] => []
    | c :: _ => [c]
  else topChunks query chunks top_k

/-! ## Chunker (text_chunker.py lines 11-97)

The NLTK sentence tokenizer is an external collaborator; `chunk_text` takes
it as a function argument `tok` returning `Except`, where `Except.error`
models a raised exception, which the Python function does not catch. -/

/-- The chunk dictionary of text_chunker.py lines 53-59; `page_position` is
initialised to 0 and never changed by the source, so `start_char` is
`current_position - len(current_chunk)` (an `Int`: it can go negative) and
`end_char` is `current_position`. -/
def mkChunk (pageIdx curPos : Nat) (cur : String) (sents : List String) : Chunk :=
  ⟨cur, pageIdx + 1, (curPos : Int) - (cur.length : Int), (curPos : Int), sents⟩

/-- The overlap-seeding loop of text_chunker.py lines 64-74, processing the
closed chunk's sentences last-to-first (the argument is the reversed sentence
list).  A sentence is prepended when it fits in the remaining budget,
stopping when the budget is exhausted; a sentence that does not fit is
skipped and scanning continues with earlier sentences (the loop has no
else-break).  Returns the seeded sentences in document order and their
concatenation. -/
def seedLoop : List String → Nat → List String × String
  | [], _ => ([], "")
  | s :: rest, rem =>
    if s.length ≤ rem then
      if rem ≤ s.length then ([s], s)
      else
        let p := seedLoop rest (rem - s.length)
        (p.1 ++ [s], p.2 ++ s)
    else seedLoop rest rem

/-- Overlap seed for a closed chunk: text_chunker.py line 66 takes
`remaining_overlap = min(overlap, len(current_chunk))` and then runs the
backward loop. -/
def overlapSeed (sents : List String) (rem : Nat) : List String × String :=
  seedLoop sents.reverse rem

/-- The per-page sentence loop of text_chunker.py lines 48-92: greedily
accumulate sentences; when the next sentence would overflow a non-empty
chunk, emit the chunk and seed the next one from `overlapSeed`; flush the
final non-empty chunk. -/
def pageLoop (pageIdx curPos maxSize overlap : Nat) :
    List String → String → List String → List Chunk
  | [], cur, curSents =>
    if cur = "" then [] else [mkChunk pageIdx curPos cur curSents]
  | s :: rest, cur, curSents =>
    if maxSize < cur.length + s.length ∧ cur ≠ "" then
      let cd := mkChunk pageIdx curPos cur curSents
      let p := overlapSeed curSents (min overlap cur.length)
      cd :: pageLoop pageIdx curPos maxSize overlap rest (p.2 ++ s) (p.1 ++ [s])
    else pageLoop pageIdx curPos maxSize overlap rest (cur ++ s) (curSents ++ [s])

/-- Matcher for one occurrence of the page-marker regex
`---backslash-s*Page-backslash-s+digits-backslash-s*---` of
text_chunker.py line 26 at the head of the input, returning the suffix after
the marker.  Each quantified class is followed by a character outside the
class, so maximal munch is exact. -/
def matchPageMarker (s : List Char) : Option (List Char) :=
  match s with
  | '-' :: '-' :: '-' :: r0 =>
    let r1 := r0.dropWhile wsChar
    if isPre ['P', 'a', 'g', 'e'] r1 then
      match r1.drop 4 with
      | c :: _ =>
        if wsChar c then
          match (r1.drop 4).dropWhile wsChar with
          | d :: _ =>
            if d.isDigit then
              match (((r1.drop 4).dropWhile wsChar).dropWhile Char.isDigit).dropWhile wsChar with
              | '-' :: '-' :: '-' :: r6 => some r6
              | _ => none
            else none
          | [] => none
        else none
      | [] => none
    else none
  | _ => none

/-- Fuel-indexed scanner for `re.split` on the page-marker pattern: at each
position, a marker match ends the current segment and scanning resumes after
the marker.  Any fuel at least the input length gives the split behaviour. -/
def splitGo : Nat → List Char → List (List Char)
  | _, [] => [[]]
  | 0, s => [s]
  | f + 1, c :: rest =>
    match matchPageMarker (c :: rest) with
    | some r => [] :: splitGo f r
    | none =>
      match splitGo f rest with
      | [] => [[c]]
      | seg :: segs => (c :: seg) :: segs

/-- Python `re.split(page_marker_pattern, text)` (text_chunker.py line 26). -/
def splitPages (s : List Char) : List (List Char) :=
  splitGo s.length s

/-- The page loop of text_chunker.py lines 35-95 over the enumerated pages:
an all-whitespace page is skipped without advancing `current_position`
(the `continue` at line 38 skips the position update at line 95); otherwise
the tokenizer is called — an exception propagates, there is no handler — and
the page's chunks are appended. -/
def pagesGo (tok : String → Except String (List String)) (maxSize overlap : Nat) :
    List (Nat × String) → Nat → Except String (List Chunk)
  | [], _ => .ok []
  | (idx, ptext) :: rest, curPos =>
    if ptext.data.any (fun c => !wsChar c) then
      match tok ptext with
      | .error e => .error e
      | .ok sents =>
        match pagesGo tok maxSize overlap rest (curPos + ptext.length) with
        | .error e => .error e
        | .ok more => .ok (pageLoop idx curPos maxSize overlap sents "" [] ++ more)
    else pagesGo tok maxSize overlap rest curPos

/-- Embedding of `chunk_text` (text_chunker.py lines 11-97): split on page
markers, drop segments that are empty after stripping, fall back to the
whole text as a single page when nothing is left, then run the page loop. -/
def chunk_text (tok : String → Except String (List String)) (text : String)
    (max_chunk_size overlap : Nat) : Except String (List Chunk) :=
  let pages0 := (splitPages text.data).map List.asString
  let pages1 := pages0.filter (fun p => p.data.any (fun c => !wsChar c))
  let pages := if pages1.isEmpty then [text] else pages1
  pagesGo tok max_chunk_size overlap pages.enum 0

/-! ## Guardrail (secure_qa.py lines 18-113)

The OpenAI call is an external capability, passed as `gen`; `Except.error`
models a raised exception, caught at line 112. -/

/-- The module-level guardrail state of secure_qa.py lines 15-16. -/
structure GState where
  consecutive_quote_requests : Nat
  previous_chunks_provided : List String
deriving DecidableEq

/-- The fresh state with which the module starts. -/
def freshState : GState := ⟨0, []⟩

/-- The four possible kinds of return value of `answer_question`. -/
inductive QARes where
  | patternRefusal
  | repetitionRefusal
  | answer (text : String)
  | genError (msg : String)
deriving DecidableEq

/-- The fixed extraction-policy refusal message (secure_qa.py lines 42-48). -/
def extractionRefusalMessage : String :=
  "I\x27m not able to extract or display large portions of the assignment content directly. This restriction helps protect the assignment\x27s intellectual property. However, I can answer specific questions about the content, explain concepts, summarize sections, or analyze particular elements. Please try asking a more specific question about the assignment."

/-- The fixed repetition refusal message (secure_qa.py lines 57-61). -/
def repetitionRefusalMessage : String :=
  "I\x27ve noticed multiple consecutive requests for similar content sections. To protect the assignment\x27s integrity, I\x27ll need to limit direct content extraction. Please try asking a different question or request an analysis rather than direct text."

/-- The error string of secure_qa.py line 113. -/
def genErrorMessage (e : String) : String :=
  "Error generating answer: " ++ e ++ ". Please try again or reformulate your question."

/-- The string `answer_question` actually returns for each outcome. -/
def qaResponseText : QARes → String
  | .patternRefusal => extractionRefusalMessage
  | .repetitionRefusal => repetitionRefusalMessage
  | .answer t => t
  | .genError m => m

/-- The texts of the retrieved chunks (secure_qa.py lines 51 and 54/64,
with the default `top_k = 3`). -/
def retrievedTexts (question : String) (chunks : List Chunk) : List String :=
  (get_relevant_chunks question chunks 3).map Chunk.text

/-- Non-emptiness of `chunk_overlap` (secure_qa.py line 54): the set of
retrieved texts meets the set of previously provided texts. -/
def overlapOf (question : String) (chunks : List Chunk) (st : GState) : Bool :=
  (retrievedTexts question chunks).any (fun t => st.previous_chunks_provided.contains t)

/-- Embedding of `answer_question` (secure_qa.py lines 18-113), with the
guardrail state passed and returned explicitly instead of the Python module
globals, and the generation call a parameter.  Pattern refusal is checked
first (stateless); then the repetition guard, which on refusal resets the
counter and leaves `previous_chunks_provided` unchanged; otherwise the state
is updated (lines 63-65) and generation is invoked, its answer passed
through `sanitize` and an exception turned into the fixed error string. -/
def answer_question (gen : Except String String) (question : String)
    (chunks : List Chunk) (st : GState) : QARes × GState :=
  if matchesExtraction question then (.patternRefusal, st)
  else
    let texts := retrievedTexts question chunks
    let ov := overlapOf question chunks st
    if ov ∧ MAX_CONSECUTIVE_QUOTES ≤ st.consecutive_quote_requests then
      (.repetitionRefusal, ⟨0, st.previous_chunks_provided⟩)
    else
      let st' : GState := ⟨st.consecutive_quote_requests + (if ov then 1 else 0), texts⟩
      let out := match gen with
        | .ok a => QARes.answer (sanitize a)
        | .error e => QARes.genError (genErrorMessage e)
      (out, st')

/-- One question posed to `answer_question` together with the outcome the
external generation call would have on it. -/
structure Call where
  question : String
  chunks : List Chunk
  gen : Except String String

/-- A sequence of consecutive calls to `answer_question`, threading the
module-level guardrail state. -/
def runCalls (st : GState) : List Call → List QARes
  | [] => []
  | c :: cs =>
    let p := answer_question c.gen c.question c.chunks st
    p.1 :: runCalls p.2 cs

/-! ## Vault (encryption.py)

`encrypt_data`/`decrypt_data` are `json.dumps`/`json.loads` composed with
Fernet encryption under a key derived by PBKDF2-HMAC-SHA256 from the
assignment id and a fixed salt.  The JSON serializer and parser are
implemented concretely below (Python defaults: separators comma-space and
colon-space, `ensure_ascii=True`).  The key derivation and the Fernet layer
are external library capabilities and are modelled by their documented
contracts at `generate_key_from_id` / `encrypt_file` / `decrypt_file`. -/

/-- JSON-representable payloads: nested sequences of mappings and scalars.
Numbers are modelled as integers (the repository's bundles carry strings,
lists, mappings and ints; floats are outside the model). -/
inductive Json where
  | null
  | bool (b : Bool)
  | int (n : Int)
  | str (s : String)
  | arr (xs : List Json)
  | obj (kvs : List (String × Json))

/-- Key lists without duplicates: the object payloads reachable from Python
dicts (a dict cannot hold a duplicate key). -/
def noDupKeys : List (String × Json) → Bool
  | [] => true
  | kv :: rest => !(rest.any (fun kv2 => kv2.1 == kv.1)) && noDupKeys rest

mutual
/-- A payload is well formed when every object layer has pairwise distinct
keys; these are exactly the values that arise from Python data. -/
def wfJ : Json → Bool
  | .null => true
  | .bool _ => true
  | .int _ => true
  | .str _ => true
  | .arr xs => wfArr xs
  | .obj kvs => noDupKeys kvs && wfObj kvs

def wfArr : List Json → Bool
  | [] => true
  | x :: xs => wfJ x && wfArr xs

def wfObj : List (String × Json) → Bool
  | [] => true
  | kv :: kvs => wfJ kv.2 && wfObj kvs
end

/-- Lower-case hex digit. -/
def hexDigitChar (n : Nat) : Char :=
  if n < 10 then Char.ofNat (48 + n) else Char.ofNat (87 + n)

/-- Four-digit hex rendering of a code unit below 65536. -/
def hex4 (n : Nat) : List Char :=
  [hexDigitChar (n / 4096 % 16), hexDigitChar (n / 256 % 16),
   hexDigitChar (n / 16 % 16), hexDigitChar (n % 16)]

/-- Python `json.dumps` escaping with `ensure_ascii=True`: short escapes for
quote, backslash and the five control abbreviations, `u00xx` escapes for the
other control characters, printable ASCII verbatim, `uxxxx` for other
basic-plane characters and a surrogate pair for supplementary characters. -/
def escapeChar (c : Char) : List Char :=
  let n := c.toNat
  if n = 34 then ['\\', '"']
  else if n = 92 then ['\\', '\\']
  else if n = 10 then ['\\', 'n']
  else if n = 9 then ['\\', 't']
  else if n = 13 then ['\\', 'r']
  else if n = 8 then ['\\', 'b']
  else if n = 12 then ['\\', 'f']
  else if 32 ≤ n ∧ n ≤ 126 then [c]
  else if n < 65536 then '\\' :: 'u' :: hex4 n
  else ('\\' :: 'u' :: hex4 (55296 + (n - 65536) / 1024)) ++
       ('\\' :: 'u' :: hex4 (56320 + (n - 65536) % 1024))

/-- Escaped body of a JSON string literal. -/
def escBody (cs : List Char) : List Char :=
  cs.foldr (fun c acc => escapeChar c ++ acc) []

/-- A JSON string literal: quote, escaped body, quote. -/
def escapeString (s : String) : List Char :=
  '"' :: (escBody s.data ++ ['"'])

/-- Decimal digit character. -/
def digitChar (n : Nat) : Char := Char.ofNat (48 + n)

/-- Fuel-indexed least-significant-first digits of a natural number; any
fuel at least the number itself is sufficient. -/
def natDigitsAux : Nat → Nat → List Char
  | 0, n => [digitChar (n % 10)]
  | f + 1, n => if n < 10 then [digitChar n] else digitChar (n % 10) :: natDigitsAux f (n / 10)

/-- Decimal rendering of a natural number (Python `repr`). -/
def natChars (n : Nat) : List Char := (natDigitsAux n n).reverse

/-- Decimal rendering of an integer (Python `repr`). -/
def intChars (n : Int) : List Char :=
  if n < 0 then '-' :: natChars n.natAbs else natChars n.toNat

mutual
/-- Python `json.dumps` with default separators (comma-space between items,
colon-space between a key and its value) on character lists. -/
def dumps : Json → List Char
  | .null => ['n', 'u', 'l', 'l']
  | .bool b => if b then ['t', 'r', 'u', 'e'] else ['f', 'a', 'l', 's', 'e']
  | .int n => intChars n
  | .str s => escapeString s
  | .arr [] => ['[', ']']
  | .arr (x :: xs) => '[' :: (dumps x ++ dumpsArrTail xs) ++ [']']
  | .obj [] => [Char.ofNat 123, Char.ofNat 125]
  | .obj (kv :: kvs) =>
    Char.ofNat 123 ::
      (escapeString kv.1 ++ ':' :: ' ' :: dumps kv.2 ++ dumpsObjTail kvs) ++ [Char.ofNat 125]

/-- Remaining array items, each preceded by comma-space. -/
def dumpsArrTail : List Json → List Char
  | [] => []
  | x :: xs => ',' :: ' ' :: dumps x ++ dumpsArrTail xs

/-- Remaining object items, each preceded by comma-space. -/
def dumpsObjTail : List (String × Json) → List Char
  | [] => []
  | kv :: kvs => ',' :: ' ' :: escapeString kv.1 ++ ':' :: ' ' :: dumps kv.2 ++ dumpsObjTail kvs
end

/-- String-level `json.dumps`. -/
def json_dumps (v : Json) : String := (dumps v).asString

/-- The whitespace characters JSON-insignificant between tokens. -/
def jwsChar (c : Char) : Bool :=
  c = ' ' || c = '\t' || c = '\n' || c = '\r'

/-- Skip insignificant whitespace. -/
def jsonWsDrop (s : List Char) : List Char := s.dropWhile jwsChar

/-- Value of a hex digit, upper or lower case; 16 marks an invalid digit. -/
def hexValD (c : Char) : Nat :=
  if 48 ≤ c.toNat ∧ c.toNat ≤ 57 then c.toNat - 48
  else if 97 ≤ c.toNat ∧ c.toNat ≤ 102 then c.toNat - 87
  else if 65 ≤ c.toNat ∧ c.toNat ≤ 70 then c.toNat - 55
  else 16

/-- Single-character escapes accepted by `json.loads`. -/
def escSingle (e : Char) : Option Char :=
  if e = '"' then some '"'
  else if e = '\\' then some '\\'
  else if e = '/' then some '/'
  else if e = 'n' then some '\n'
  else if e = 't' then some '\t'
  else if e = 'r' then some '\r'
  else if e = 'b' then some (Char.ofNat 8)
  else if e = 'f' then some (Char.ofNat 12)
  else none

/-- Prepend a decoded character to a string-parser result. -/
def consRes (ch : Char) : Option (List Char × List Char) → Option (List Char × List Char)
  | some (cs, r) => some (ch :: cs, r)
  | none => none

mutual
/-- Body parser of a JSON string literal, after the opening quote: returns
the decoded characters and the suffix after the closing quote.  Raw control
characters are rejected (strict mode). -/
def parseStrLoop : List Char → Option (List Char × List Char)
  | [] => none
  | c :: rest =>
    if c = '"' then some ([], rest)
    else if c = '\\' then parseEsc rest
    else if c.toNat < 32 then none
    else consRes c (parseStrLoop rest)

/-- Parser of the escape after a backslash. -/
def parseEsc : List Char → Option (List Char × List Char)
  | [] => none
  | e :: r2 =>
    if e = 'u' then parseU r2
    else
      match escSingle e with
      | some ch => consRes ch (parseStrLoop r2)
      | none => none

/-- Parser of the four hex digits of a unicode escape.  A high surrogate
must be completed by an escaped low surrogate; a lone surrogate has no
counterpart among Lean scalar values and is rejected by the model. -/
def parseU : List Char → Option (List Char × List Char)
  | a :: b :: c2 :: d :: r3 =>
    if hexValD a < 16 ∧ hexValD b < 16 ∧ hexValD c2 < 16 ∧ hexValD d < 16 then
      if 55296 ≤ hexValD a * 4096 + hexValD b * 256 + hexValD c2 * 16 + hexValD d ∧
          hexValD a * 4096 + hexValD b * 256 + hexValD c2 * 16 + hexValD d ≤ 56319 then
        parseLowSur (hexValD a * 4096 + hexValD b * 256 + hexValD c2 * 16 + hexValD d) r3
      else if 56320 ≤ hexValD a * 4096 + hexValD b * 256 + hexValD c2 * 16 + hexValD d ∧
          hexValD a * 4096 + hexValD b * 256 + hexValD c2 * 16 + hexValD d ≤ 57343 then none
      else
        consRes (Char.ofNat (hexValD a * 4096 + hexValD b * 256 + hexValD c2 * 16 + hexValD d))
          (parseStrLoop r3)
    else none
  | _ => none

/-- Parser of the escaped low surrogate completing a high surrogate `n`. -/
def parseLowSur (n : Nat) : List Char → Option (List Char × List Char)
  | s1 :: u1 :: a2 :: b2 :: c3 :: d2 :: r4 =>
    if s1 = '\\' ∧ u1 = 'u' then
      if hexValD a2 < 16 ∧ hexValD b2 < 16 ∧ hexValD c3 < 16 ∧ hexValD d2 < 16 then
        if 56320 ≤ hexValD a2 * 4096 + hexValD b2 * 256 + hexValD c3 * 16 + hexValD d2 ∧
            hexValD a2 * 4096 + hexValD b2 * 256 + hexValD c3 * 16 + hexValD d2 ≤ 57343 then
          consRes (Char.ofNat (65536 + (n - 55296) * 1024 +
            (hexValD a2 * 4096 + hexValD b2 * 256 + hexValD c3 * 16 + hexValD d2 - 56320)))
            (parseStrLoop r4)
        else none
      else none
    else none
  | _ => none
end

/-- Numeric value of a digit run. -/
def digitsToNat (run : List Char) : Nat :=
  run.foldl (fun a c => a * 10 + (c.toNat - 48)) 0

/-- Unsigned integer literal: a single zero, or a maximal digit run not
starting with zero (the JSON grammar forbids leading zeros; a spurious
trailing digit after a leading zero makes the enclosing parse fail). -/
def parseNatJson (s : List Char) : Option (Nat × List Char) :=
  match s with
  | [] => none
  | c :: rest =>
    if c = '0' then some (0, rest)
    else if c.isDigit then
      some (digitsToNat ((c :: rest).takeWhile Char.isDigit),
            (c :: rest).dropWhile Char.isDigit)
    else none

/-- Reject a fraction or exponent continuation: `json.loads` would produce a
float there, which the integer-only payload model does not represent. -/
def checkNoFrac (v : Int) (r : List Char) : Option (Int × List Char) :=
  match r with
  | [] => some (v, r)
  | c :: _ => if c = '.' ∨ c = 'e' ∨ c = 'E' then none else some (v, r)

/-- Signed integer literal. -/
def parseIntJson (s : List Char) : Option (Int × List Char) :=
  match s with
  | [] => none
  | c :: rest =>
    if c = '-' then
      match parseNatJson rest with
      | some (n, r) => checkNoFrac (-(n : Int)) r
      | none => none
    else
      match parseNatJson (c :: rest) with
      | some (n, r) => checkNoFrac (n : Int) r
      | none => none

mutual
/-- Fuel-indexed JSON value parser (`json.loads` grammar); any fuel at least
`needJ` of the parsed value suffices on serialized input. -/
def parseJ : Nat → List Char → Option (Json × List Char)
  | 0, _ => none
  | f + 1, s =>
    match jsonWsDrop s with
    | [] => none
    | c :: rest =>
      if c = 'n' then
        if isPre ['u', 'l', 'l'] rest then some (.null, rest.drop 3) else none
      else if c = 't' then
        if isPre ['r', 'u', 'e'] rest then some (.bool true, rest.drop 3) else none
      else if c = 'f' then
        if isPre ['a', 'l', 's', 'e'] rest then some (.bool false, rest.drop 4) else none
      else if c = '"' then
        match parseStrLoop rest with
        | some (cs, r) => some (.str cs.asString, r)
        | none => none
      else if c = '[' then
        match jsonWsDrop rest with
        | ']' :: r => some (.arr [], r)
        | r2 =>
          match parseJ f r2 with
          | some (x, r3) =>
            match parseArrTail f r3 with
            | some (xs, r4) => some (.arr (x :: xs), r4)
            | none => none
          | none => none
      else if c = Char.ofNat 123 then
        match jsonWsDrop rest with
        | [] => none
        | c2 :: r =>
          if c2 = Char.ofNat 125 then some (.obj [], r)
          else if c2 = '"' then
            match parseStrLoop r with
            | some (k, r2) =>
              match jsonWsDrop r2 with
              | ':' :: r3 =>
                match parseJ f r3 with
                | some (v, r4) =>
                  match parseObjTail f r4 with
                  | some (kvs, r5) => some (.obj ((k.asString, v) :: kvs), r5)
                  | none => none
                | none => none
              | _ => none
            | none => none
          else none
      else
        match parseIntJson (c :: rest) with
        | some (n, r) => some (.int n, r)
        | none => none

/-- Parser of the continuation of an array after one item: a closing bracket
or a comma followed by another item. -/
def parseArrTail : Nat → List Char → Option (List Json × List Char)
  | 0, _ => none
  | f + 1, s =>
    match jsonWsDrop s with
    | ']' :: r => some ([], r)
    | ',' :: r =>
      match parseJ f r with
      | some (x, r2) =>
        match parseArrTail f r2 with
        | some (xs, r3) => some (x :: xs, r3)
        | none => none
      | none => none
    | _ => none

/-- Parser of the continuation of an object after one entry. -/
def parseObjTail : Nat → List Char → Option (List (String × Json) × List Char)
  | 0, _ => none
  | f + 1, s =>
    match jsonWsDrop s with
    | [] => none
    | c :: r =>
      if c = Char.ofNat 125 then some ([], r)
      else if c = ',' then
        match jsonWsDrop r with
        | '"' :: r2 =>
          match parseStrLoop r2 with
          | some (k, r3) =>
            match jsonWsDrop r3 with
            | ':' :: r4 =>
              match parseJ f r4 with
              | some (v, r5) =>
                match parseObjTail f r5 with
                | some (kvs, r6) => some ((k.asString, v) :: kvs, r6)
                | none => none
              | none => none
            | _ => none
          | none => none
        | _ => none
      else none
end

/-- String-level `json.loads`: parse one value, allow trailing whitespace
only. -/
def json_loads (s : String) : Option Json :=
  match parseJ (s.length + 1) s.data with
  | some (v, r) => if (jsonWsDrop r).isEmpty then some v else none
  | none => none

mutual
/-- Fuel sufficient for `parseJ` on the serialization of a value. -/
def needJ : Json → Nat
  | .null => 1
  | .bool _ => 1
  | .int _ => 1
  | .str _ => 1
  | .arr [] => 1
  | .arr (x :: xs) => 1 + max (needJ x) (needTailA xs)
  | .obj [] => 1
  | .obj (kv :: kvs) => 1 + max (needJ kv.2) (needTailO kvs)

/-- Fuel sufficient for `parseArrTail` on a serialized array tail. -/
def needTailA : List Json → Nat
  | [] => 1
  | x :: xs => 1 + max (needJ x) (needTailA xs)

/-- Fuel sufficient for `parseObjTail` on a serialized object tail. -/
def needTailO : List (String × Json) → Nat
  | [] => 1
  | kv :: kvs => 1 + max (needJ kv.2) (needTailO kvs)
end

/-- The PBKDF2-derived key.  Modelled from the spec: the derivation of
encryption.py lines 10-25 (PBKDF2-HMAC-SHA256, 100000 iterations) is an
external-library computation, required to be deterministic in the pair of
salt and id and, as an idealized KDF, collision-free; the model is the
formal pair itself. -/
structure DerivedKey where
  salt : String
  password : String
deriving DecidableEq

/-- The fixed fallback salt of encryption.py line 13 (`ENCRYPTION_SALT`
environment variable unset). -/
def ENCRYPTION_SALT : String := "secure-evaluator-salt"

/-- Embedding of `generate_key_from_id` (encryption.py lines 10-25):
deterministic key from the fixed salt and the assignment id. -/
def generate_key_from_id (assignment_id : String) : DerivedKey :=
  ⟨ENCRYPTION_SALT, assignment_id⟩

/-- Error kinds of the vault: Fernet `InvalidToken` on authentication
failure, or a deserialization failure of the decrypted bytes. -/
inductive VaultError where
  | authenticationFailure
  | invalidPayload
deriving DecidableEq

/-- A Fernet token.  Modelled from the spec: Fernet is authenticated
encryption, so a token decrypts only under the key that produced it and is
opaque otherwise; the model carries the producing key and the plaintext. -/
structure FernetToken where
  key : DerivedKey
  payload : String
deriving DecidableEq

/-- Embedding of `encrypt_file` (encryption.py lines 27-32). -/
def encrypt_file (file_data : String) (assignment_id : String) : FernetToken :=
  ⟨generate_key_from_id assignment_id, file_data⟩

/-- Embedding of `decrypt_file` (encryption.py lines 34-39): Fernet
authenticated decryption; a key mismatch (wrong assignment id, or a token
not produced by `encrypt_file` under this id) raises `InvalidToken` instead
of returning data. -/
def decrypt_file (t : FernetToken) (assignment_id : String) : Except VaultError String :=
  if t.key = generate_key_from_id assignment_id then .ok t.payload
  else .error .authenticationFailure

/-- Embedding of `encrypt_data` (encryption.py lines 41-45):
`json.dumps` then `encrypt_file`. -/
def encrypt_data (data : Json) (assignment_id : String) : FernetToken :=
  encrypt_file (json_dumps data) assignment_id

/-- Deserialization of the decrypted bytes (encryption.py line 50). -/
def decodePayload (s : String) : Except VaultError Json :=
  match json_loads s with
  | some v => .ok v
  | none => .error .invalidPayload

/-- Embedding of `decrypt_data` (encryption.py lines 47-50):
`decrypt_file` then `json.loads`. -/
def decrypt_data (t : FernetToken) (assignment_id : String) : Except VaultError Json :=
  match decrypt_file t assignment_id with
  | .error e => .error e
  | .ok s => decodePayload s

/-! ## Shared character and list lemmas -/

/-- The code point of a `Char.ofNat` at a valid code point. -/
theorem char_toNat_ofNat (n : Nat) (h : n.isValidChar) : (Char.ofNat n).toNat = n := by
  simp [Char.ofNat, h, Char.ofNatAux, Char.toNat]
  rfl

/-- A character equals `Char.ofNat` of its code point. -/
theorem char_eq_of_toNat (c : Char) (n : Nat) (h : c.toNat = n) : c = Char.ofNat n := by
  subst h
  exact (Char.ofNat_toNat c).symm

/-- Every character code point is valid: below the surrogate block or above
it and below 1114112. -/
theorem char_valid_nat (c : Char) : c.toNat < 55296 ∨ 57343 < c.toNat ∧ c.toNat < 1114112 :=
  c.valid

/-- `isPre` accepts the pattern itself before any suffix. -/
theorem isPre_self_append (p t : List Char) : isPre p (p ++ t) = true := by
  induction p with
  | nil => rfl
  | cons c cs ih => simp [isPre, ih]

/-- Membership in a list makes `contains` true. -/
theorem contains_of_mem {l : List String} {t : String} (h : t ∈ l) : l.contains t = true := by
  simp [List.contains, List.elem_iff, h]

/-! ## Claim C2: the extraction-pattern check on the question
"extract the entire document" -/

/-- A chunk used in the concrete guardrail scenarios. -/
def alphaChunk : Chunk := ⟨"alpha", 1, 0, 5, ["alpha"]⟩

/-- C2: the spec demands that the question "extract the entire document"
refuse with the extraction-policy message, but none of the six
`extraction_patterns` matches it — pattern 1 requires the quantified word to
follow "extract" immediately and has no optional article group (unlike
pattern 4, which does allow "the") — so `answer_question` proceeds to
retrieval and generation instead of refusing.  Dropping the article makes
the pattern match, confirming the missing-article diagnosis. -/
theorem extraction_check_misses_article :
    matchesExtraction "extract the entire document" = false ∧
    matchesExtraction "extract entire document" = true ∧
    (answer_question (Except.ok "An answer.") "extract the entire document"
      [alphaChunk] freshState).1 ≠ QARes.patternRefusal := by
  refine ⟨by decide, by decide, by decide⟩

/-! ## Claims C1 and C10: the guardrail state machine -/

/-- Behaviour of `answer_question` when neither refusal triggers: it
returns the generated answer (or the generation-error string) together with
the updated state. -/
theorem answer_question_proceed (gen : Except String String) (q : String) (chs : List Chunk)
    (st : GState) (hp : matchesExtraction q = false)
    (hno : ¬(overlapOf q chs st = true ∧ MAX_CONSECUTIVE_QUOTES ≤ st.consecutive_quote_requests)) :
    answer_question gen q chs st =
      ((match gen with
        | .ok a => QARes.answer (sanitize a)
        | .error e => QARes.genError (genErrorMessage e)),
       ⟨st.consecutive_quote_requests + (if overlapOf q chs st then 1 else 0),
        retrievedTexts q chs⟩) := by
  rw [answer_question.eq_def, hp]
  simp only [Bool.false_eq_true, if_false, if_neg hno]

/-- Behaviour of `answer_question` when the repetition guard fires: the
fixed refusal, counter reset, `previous_chunks_provided` untouched. -/
theorem answer_question_refuses (gen : Except String String) (q : String) (chs : List Chunk)
    (st : GState) (hp : matchesExtraction q = false)
    (hov : overlapOf q chs st = true)
    (hc : MAX_CONSECUTIVE_QUOTES ≤ st.consecutive_quote_requests) :
    answer_question gen q chs st = (.repetitionRefusal, ⟨0, st.previous_chunks_provided⟩) := by
  rw [answer_question.eq_def, hp]
  simp only [Bool.false_eq_true, if_false, if_pos (And.intro hov hc)]

/-- A shared retrieved text makes the overlap check true. -/
theorem overlapOf_true (q : String) (chs : List Chunk) (st : GState) (t : String)
    (h1 : t ∈ retrievedTexts q chs) (h2 : t ∈ st.previous_chunks_provided) :
    overlapOf q chs st = true := by
  simp only [overlapOf, List.any_eq_true]
  exact ⟨t, h1, contains_of_mem h2⟩

/-- With no previously provided chunks the overlap check is false. -/
theorem overlapOf_nilprev (q : String) (chs : List Chunk) (n : Nat) :
    overlapOf q chs ⟨n, []⟩ = false := by
  simp [overlapOf, List.contains]

/-- A repeated question whose retrieval always returns the `alphaChunk`. -/
def alphaCall : Call := ⟨"alpha", [alphaChunk], Except.ok "ok"⟩

/-- C1 counterexample: starting from the fresh guardrail state, four
consecutive calls whose retrievals overlap pairwise do NOT make the fourth
call refuse — the first call cannot overlap the empty initial
`previous_chunks_provided`, so the counter is 0, 0, 1, 2 going into calls
1-4 and only reaches the threshold 3 after the fourth call. -/
theorem guardrail_fourth_call_answers :
    (runCalls freshState [alphaCall, alphaCall, alphaCall, alphaCall])[3]? ≠
      some QARes.repetitionRefusal := by decide

/-- C1 amended: in a sequence of five consecutive calls from the fresh
state, each passing the pattern check, in which every call from the second
on retrieves a chunk text also retrieved by the immediately preceding call,
the fifth call returns the repetition refusal. -/
theorem guardrail_fifth_call_refuses (c1 c2 c3 c4 c5 : Call)
    (hp1 : matchesExtraction c1.question = false)
    (hp2 : matchesExtraction c2.question = false)
    (hp3 : matchesExtraction c3.question = false)
    (hp4 : matchesExtraction c4.question = false)
    (hp5 : matchesExtraction c5.question = false)
    (h12 : ∃ t, t ∈ retrievedTexts c2.question c2.chunks ∧
      t ∈ retrievedTexts c1.question c1.chunks)
    (h23 : ∃ t, t ∈ retrievedTexts c3.question c3.chunks ∧
      t ∈ retrievedTexts c2.question c2.chunks)
    (h34 : ∃ t, t ∈ retrievedTexts c4.question c4.chunks ∧
      t ∈ retrievedTexts c3.question c3.chunks)
    (h45 : ∃ t, t ∈ retrievedTexts c5.question c5.chunks ∧
      t ∈ retrievedTexts c4.question c4.chunks) :
    (runCalls freshState [c1, c2, c3, c4, c5])[4]? = some QARes.repetitionRefusal := by
  obtain ⟨t2, ht2r, ht2p⟩ := h12
  obtain ⟨t3, ht3r, ht3p⟩ := h23
  obtain ⟨t4, ht4r, ht4p⟩ := h34
  obtain ⟨t5, ht5r, ht5p⟩ := h45
  have s1 : (answer_question c1.gen c1.question c1.chunks freshState).2 =
      ⟨0, retrievedTexts c1.question c1.chunks⟩ := by
    rw [answer_question_proceed _ _ _ _ hp1 (by simp [freshState, overlapOf_nilprev])]
    simp [freshState, overlapOf_nilprev]
  have hov2 : overlapOf c2.question c2.chunks ⟨0, retrievedTexts c1.question c1.chunks⟩ = true :=
    overlapOf_true _ _ _ t2 ht2r ht2p
  have s2 : (answer_question c2.gen c2.question c2.chunks
      ⟨0, retrievedTexts c1.question c1.chunks⟩).2 =
      ⟨1, retrievedTexts c2.question c2.chunks⟩ := by
    rw [answer_question_proceed _ _ _ _ hp2 (by simp [hov2, MAX_CONSECUTIVE_QUOTES])]
    simp [hov2]
  have hov3 : overlapOf c3.question c3.chunks ⟨1, retrievedTexts c2.question c2.chunks⟩ = true :=
    overlapOf_true _ _ _ t3 ht3r ht3p
  have s3 : (answer_question c3.gen c3.question c3.chunks
      ⟨1, retrievedTexts c2.question c2.chunks⟩).2 =
      ⟨2, retrievedTexts c3.question c3.chunks⟩ := by
    rw [answer_question_proceed _ _ _ _ hp3 (by simp [hov3, MAX_CONSECUTIVE_QUOTES])]
    simp [hov3]
  have hov4 : overlapOf c4.question c4.chunks ⟨2, retrievedTexts c3.question c3.chunks⟩ = true :=
    overlapOf_true _ _ _ t4 ht4r ht4p
  have s4 : (answer_question c4.gen c4.question c4.chunks
      ⟨2, retrievedTexts c3.question c3.chunks⟩).2 =
      ⟨3, retrievedTexts c4.question c4.chunks⟩ := by
    rw [answer_question_proceed _ _ _ _ hp4 (by simp [hov4, MAX_CONSECUTIVE_QUOTES])]
    simp [hov4]
  have hov5 : overlapOf c5.question c5.chunks ⟨3, retrievedTexts c4.question c4.chunks⟩ = true :=
    overlapOf_true _ _ _ t5 ht5r ht5p
  have r5 : (answer_question c5.gen c5.question c5.chunks
      ⟨3, retrievedTexts c4.question c4.chunks⟩).1 = QARes.repetitionRefusal := by
    rw [answer_question_refuses _ _ _ _ hp5 hov5 (by simp [MAX_CONSECUTIVE_QUOTES])]
  simp only [runCalls, s1, s2, s3, s4, r5]
  simp

/-- Witness for the amended C1 theorem on a concrete five-call trace. -/
theorem guardrail_fifth_call_refuses_witness :
    (matchesExtraction alphaCall.question = false ∧
      (∃ t, t ∈ retrievedTexts alphaCall.question alphaCall.chunks ∧
        t ∈ retrievedTexts alphaCall.question alphaCall.chunks)) ∧
    (runCalls freshState [alphaCall, alphaCall, alphaCall, alphaCall, alphaCall])[4]? =
      some QARes.repetitionRefusal :=
  ⟨⟨by decide, ⟨"alpha", by decide, by decide⟩⟩,
    guardrail_fifth_call_refuses alphaCall alphaCall alphaCall alphaCall alphaCall
      (by decide) (by decide) (by decide) (by decide) (by decide)
      ⟨"alpha", by decide, by decide⟩ ⟨"alpha", by decide, by decide⟩
      ⟨"alpha", by decide, by decide⟩ ⟨"alpha", by decide, by decide⟩⟩

/-- C10: the guardrail state update of secure_qa.py lines 63-65 happens
before the generation call, so a failing generation leaves exactly the same
state as a successful one while returning the fixed error string. -/
theorem generation_failure_not_atomic (q : String) (chs : List Chunk) (st : GState)
    (e a : String) (hp : matchesExtraction q = false)
    (hno : ¬(overlapOf q chs st = true ∧ MAX_CONSECUTIVE_QUOTES ≤ st.consecutive_quote_requests)) :
    (answer_question (Except.error e) q chs st).2 = (answer_question (Except.ok a) q chs st).2 ∧
    (answer_question (Except.error e) q chs st).2 =
      ⟨st.consecutive_quote_requests + (if overlapOf q chs st then 1 else 0),
        retrievedTexts q chs⟩ ∧
    (answer_question (Except.error e) q chs st).1 = QARes.genError (genErrorMessage e) := by
  rw [answer_question_proceed _ _ _ _ hp hno, answer_question_proceed _ _ _ _ hp hno]
  exact ⟨rfl, rfl, rfl⟩

/-- Witness for the C10 theorem at a concrete call. -/
theorem generation_failure_not_atomic_witness :
    (matchesExtraction "alpha" = false ∧
      ¬(overlapOf "alpha" [alphaChunk] freshState = true ∧
        MAX_CONSECUTIVE_QUOTES ≤ freshState.consecutive_quote_requests)) ∧
    ((answer_question (Except.error "timeout") "alpha" [alphaChunk] freshState).2 =
      (answer_question (Except.ok "fine") "alpha" [alphaChunk] freshState).2 ∧
    (answer_question (Except.error "timeout") "alpha" [alphaChunk] freshState).2 =
      ⟨freshState.consecutive_quote_requests +
        (if overlapOf "alpha" [alphaChunk] freshState then 1 else 0),
        retrievedTexts "alpha" [alphaChunk]⟩ ∧
    (answer_question (Except.error "timeout") "alpha" [alphaChunk] freshState).1 =
      QARes.genError (genErrorMessage "timeout")) :=
  ⟨⟨by decide, by decide⟩,
    generation_failure_not_atomic "alpha" [alphaChunk] freshState "timeout" "fine"
      (by decide) (by decide)⟩

/-! ## Claim C8: the retriever never returns empty context -/

/-- Membership through the stable descending insertion. -/
theorem mem_insertDesc {x y : Nat × Nat} {l : List (Nat × Nat)} :
    y ∈ insertDesc x l ↔ y = x ∨ y ∈ l := by
  induction l with
  | nil => simp [insertDesc]
  | cons z zs ih =>
    simp only [insertDesc]
    split
    · simp only [List.mem_cons, ih]
      tauto
    · simp only [List.mem_cons]

/-- The stable descending sort is a permutation at the level of
membership. -/
theorem mem_sortDesc {y : Nat × Nat} {l : List (Nat × Nat)} :
    y ∈ sortDesc l ↔ y ∈ l := by
  induction l with
  | nil => simp [sortDesc]
  | cons x xs ih => simp [sortDesc, mem_insertDesc, ih]

/-- Every scored pair indexes a chunk of the input and carries its score. -/
theorem mem_scoredChunks {query : String} {chunks : List Chunk} {p : Nat × Nat}
    (h : p ∈ scoredChunks query chunks) :
    p.1 < chunks.length ∧ p.2 = chunkScore query (chunks.getD p.1 ⟨"", 0, 0, 0, []⟩) := by
  obtain ⟨⟨i, c⟩, hmem, heq⟩ := List.mem_map.mp h
  obtain ⟨hlt, hc⟩ := List.mem_enum hmem
  cases heq
  refine ⟨hlt, ?_⟩
  rw [List.getD_eq_getElem _ _ hlt, ← hc]

/-- The selected chunks all scored positively. -/
theorem topChunks_pos {query : String} {chunks : List Chunk} {k : Nat} {c : Chunk}
    (h : c ∈ topChunks query chunks k) : 0 < chunkScore query c := by
  obtain ⟨p, hp, rfl⟩ := List.mem_map.mp h
  obtain ⟨hmem, hpos⟩ := List.mem_filter.mp hp
  have hs : p ∈ scoredChunks query chunks :=
    mem_sortDesc.mp (List.mem_of_mem_take hmem)
  have := (mem_scoredChunks hs).2
  rw [← this]
  simpa using hpos

/-- When every chunk scores zero the selection is empty. -/
theorem topChunks_all_zero {query : String} {chunks : List Chunk} {k : Nat}
    (h : ∀ c ∈ chunks, chunkScore query c = 0) : topChunks query chunks k = [] := by
  rw [topChunks]
  rw [List.map_eq_nil_iff]
  rw [List.filter_eq_nil_iff]
  intro p hp
  have hs : p ∈ scoredChunks query chunks := mem_sortDesc.mp (List.mem_of_mem_take hp)
  obtain ⟨hlt, hsc⟩ := mem_scoredChunks hs
  have hmem : chunks.getD p.1 ⟨"", 0, 0, 0, []⟩ ∈ chunks := by
    rw [List.getD_eq_getElem _ _ hlt]
    exact List.getElem_mem hlt
  simp only [decide_eq_true_eq]
  rw [hsc, h _ hmem]
  simp

/-- Length bound on the selection. -/
theorem topChunks_len (query : String) (chunks : List Chunk) (k : Nat) :
    (topChunks query chunks k).length ≤ k := by
  rw [topChunks, List.length_map]
  have h1 := List.length_filter_le (fun p => decide (0 < p.2))
    ((sortDesc (scoredChunks query chunks)).take k)
  have h2 : ((sortDesc (scoredChunks query chunks)).take k).length ≤ k := by
    simp [List.length_take]
  omega

/-- C8: on a non-empty chunk list the retriever returns a non-empty list of
at most `top_k = 3` chunks; if every chunk scores zero the result is exactly
the singleton first chunk; and every returned chunk scored positively unless
the result is that fallback singleton. -/
theorem get_relevant_chunks_spec (query : String) (chunks : List Chunk) (h : chunks ≠ []) :
    get_relevant_chunks query chunks 3 ≠ [] ∧
    (get_relevant_chunks query chunks 3).length ≤ 3 ∧
    ((∀ c ∈ chunks, chunkScore query c = 0) →
      get_relevant_chunks query chunks 3 = [chunks.head h]) ∧
    (∀ c ∈ get_relevant_chunks query chunks 3,
      0 < chunkScore query c ∨ get_relevant_chunks query chunks 3 = [chunks.head h]) := by
  obtain ⟨c0, cs, rfl⟩ : ∃ c0 cs, chunks = c0 :: cs := by
    cases chunks with
    | nil => exact absurd rfl h
    | cons c0 cs => exact ⟨c0, cs, rfl⟩
  by_cases htop : (topChunks query (c0 :: cs) 3).isEmpty
  · have hres : get_relevant_chunks query (c0 :: cs) 3 = [c0] := by
      rw [get_relevant_chunks, if_pos htop]
    refine ⟨by simp [hres], by simp [hres], fun _ => by simp [hres], ?_⟩
    intro c _
    exact Or.inr (by simp [hres])
  · have hres : get_relevant_chunks query (c0 :: cs) 3 = topChunks query (c0 :: cs) 3 := by
      rw [get_relevant_chunks, if_neg htop]
    refine ⟨?_, ?_, ?_, ?_⟩
    · rw [hres]
      intro hnil
      exact htop (by simp [hnil])
    · rw [hres]
      exact topChunks_len _ _ _
    · intro hall
      exact absurd (by simp [topChunks_all_zero hall]) htop
    · intro c hc
      rw [hres] at hc
      exact Or.inl (topChunks_pos hc)

/-- Witness for the C8 theorem: one chunk matching the query and one scoring
zero. -/
theorem get_relevant_chunks_spec_witness :
    ([alphaChunk, ⟨"beta", 1, 0, 4, ["beta"]⟩] ≠ ([] : List Chunk)) ∧
    (get_relevant_chunks "alpha" [alphaChunk, ⟨"beta", 1, 0, 4, ["beta"]⟩] 3 ≠ [] ∧
    (get_relevant_chunks "alpha" [alphaChunk, ⟨"beta", 1, 0, 4, ["beta"]⟩] 3).length ≤ 3 ∧
    ((∀ c ∈ [alphaChunk, ⟨"beta", 1, 0, 4, ["beta"]⟩], chunkScore "alpha" c = 0) →
      get_relevant_chunks "alpha" [alphaChunk, ⟨"beta", 1, 0, 4, ["beta"]⟩] 3 =
        [([alphaChunk, ⟨"beta", 1, 0, 4, ["beta"]⟩].head (by decide))]) ∧
    (∀ c ∈ get_relevant_chunks "alpha" [alphaChunk, ⟨"beta", 1, 0, 4, ["beta"]⟩] 3,
      0 < chunkScore "alpha" c ∨
      get_relevant_chunks "alpha" [alphaChunk, ⟨"beta", 1, 0, 4, ["beta"]⟩] 3 =
        [([alphaChunk, ⟨"beta", 1, 0, 4, ["beta"]⟩].head (by decide))])) :=
  ⟨by decide, get_relevant_chunks_spec "alpha" [alphaChunk, ⟨"beta", 1, 0, 4, ["beta"]⟩] (by decide)⟩

/-! ## Claim C5: the overlap seeding of the chunker -/

/-- The sentences selected by the seeding loop form a sublist (in reverse)
of its input. -/
theorem seedLoop_sublist : ∀ (l : List String) (rem : Nat),
    ((seedLoop l rem).1.reverse).Sublist l := by
  intro l
  induction l with
  | nil => intro rem; simp [seedLoop]
  | cons s rest ih =>
    intro rem
    rw [seedLoop]
    split
    · split
      · simp
      · have h2 := List.Sublist.cons₂ s (ih (rem - s.length))
        simpa using h2
    · exact List.Sublist.cons _ (ih rem)

/-- The seeded text never exceeds the remaining budget. -/
theorem seedLoop_len : ∀ (l : List String) (rem : Nat), (seedLoop l rem).2.length ≤ rem := by
  intro l
  induction l with
  | nil => intro rem; simp [seedLoop]
  | cons s rest ih =>
    intro rem
    rw [seedLoop]
    split
    · split
      · simpa
      · have := ih (rem - s.length)
        simp only [String.length_append]
        omega
    · exact ih rem

/-- The seeded text is the concatenation of the seeded sentences. -/
theorem seedLoop_text : ∀ (l : List String) (rem : Nat),
    (seedLoop l rem).2 = String.join (seedLoop l rem).1 := by
  intro l
  induction l with
  | nil => intro rem; simp [seedLoop, String.join]
  | cons s rest ih =>
    intro rem
    rw [seedLoop]
    split
    · split
      · simp [String.join]
      · simp only [String.join, List.foldl_append, List.foldl_cons, List.foldl_nil]
        rw [ih (rem - s.length)]
        rfl
    · exact ih rem

/-- C5 amended: the chunk seeded at a closure is built from a sublist of the
closed chunk's sentences, selected from the end backward — a sentence longer
than the remaining budget is skipped and scanning continues with earlier
sentences, so the selection need not be a contiguous trailing run — whose
concatenated length is at most `min overlap (chunk length)`, hence at most
the configured `overlap`. -/
theorem overlap_seed_spec (sents : List String) (overlap chunkLen : Nat) :
    ((overlapSeed sents (min overlap chunkLen)).1).Sublist sents ∧
    (overlapSeed sents (min overlap chunkLen)).2.length ≤ overlap ∧
    (overlapSeed sents (min overlap chunkLen)).2 =
      String.join (overlapSeed sents (min overlap chunkLen)).1 := by
  refine ⟨?_, ?_, seedLoop_text _ _⟩
  · have h := seedLoop_sublist sents.reverse (min overlap chunkLen)
    have h2 := h.reverse
    simpa [overlapSeed] using h2
  · have h := seedLoop_len sents.reverse (min overlap chunkLen)
    have : min overlap chunkLen ≤ overlap := Nat.min_le_left _ _
    calc (overlapSeed sents (min overlap chunkLen)).2.length
        ≤ min overlap chunkLen := h
      _ ≤ overlap := this

/-- C5 counterexample: with `max_chunk_size = 10` and `overlap = 4`, the
sentences "aa", "bbbbbb", "cc", "dddddddddd" close a chunk after the third
sentence, and the new chunk is seeded with ["aa", "cc"] — the loop skips
"bbbbbb" (too long for the remaining budget) but still takes the earlier
"aa" — which is not a suffix (not even a contiguous run) of the closed
chunk's sentences, contradicting the claimed contiguous trailing overlap. -/
theorem chunker_overlap_not_contiguous :
    (pageLoop 0 0 10 4 ["aa", "bbbbbb", "cc", "dddddddddd"] "" []).map Chunk.sentences =
      [["aa", "bbbbbb", "cc"], ["aa", "cc", "dddddddddd"]] ∧
    (overlapSeed ["aa", "bbbbbb", "cc"] (min 4 10)).1 = ["aa", "cc"] ∧
    List.isSuffixOf ["aa", "cc"] ["aa", "bbbbbb", "cc"] = false ∧
    ¬ (["aa", "cc"] <:+: ["aa", "bbbbbb", "cc"]) := by
  refine ⟨by decide, by decide, by decide, by decide⟩

/-! ## Claim C9: chunking is fatal when the sentence splitter throws -/

/-- C9 counterexample: with a sentence splitter that throws, `chunk_text`
propagates the failure instead of degrading to a single whole-page chunk —
the Python function has no exception handler around `sent_tokenize`. -/
theorem chunk_text_boom :
    chunk_text (fun _ => Except.error "boom") "hello" 1000 200 = Except.error "boom" ∧
    ∀ cs : List Chunk, chunk_text (fun _ => Except.error "boom") "hello" 1000 200 ≠
      Except.ok cs := by
  refine ⟨rfl, ?_⟩
  intro cs hcs
  rw [show chunk_text (fun _ => Except.error "boom") "hello" 1000 200 =
    Except.error "boom" from rfl] at hcs
  exact Except.noConfusion hcs

/-- Propagation of a tokenizer exception out of the page loop. -/
theorem pagesGo_error_head (msg : String) (maxSize overlap idx : Nat) (ptext : String)
    (rest : List (Nat × String)) (curPos : Nat)
    (hpred : ptext.data.any (fun c => !wsChar c) = true) :
    pagesGo (fun _ => Except.error msg) maxSize overlap ((idx, ptext) :: rest) curPos =
      Except.error msg := by
  rw [show pagesGo (fun _ => Except.error msg) maxSize overlap ((idx, ptext) :: rest) curPos =
    (if ptext.data.any (fun c => !wsChar c) then Except.error msg
     else pagesGo (fun _ => Except.error msg) maxSize overlap rest curPos) from rfl]
  rw [if_pos hpred]

/-- C9 amended: whenever the text contains any non-whitespace character (so
at least one page is actually tokenized), a sentence splitter that throws
makes `chunk_text` return that error: the failure is propagated, never
caught. -/
theorem chunk_text_propagates_error (text msg : String) (maxSize overlap : Nat)
    (h : text.data.any (fun c => !wsChar c) = true) :
    chunk_text (fun _ => Except.error msg) text maxSize overlap = Except.error msg := by
  rw [chunk_text]
  cases hp : ((splitPages text.data).map List.asString).filter
      (fun p => p.data.any (fun c => !wsChar c)) with
  | nil =>
    simp only [hp, List.isEmpty_nil, if_true, List.enum_cons]
    exact pagesGo_error_head _ _ _ _ _ _ _ h
  | cons p ps =>
    have hpred : p.data.any (fun c => !wsChar c) = true := by
      have hmem : p ∈ ((splitPages text.data).map List.asString).filter
          (fun q => q.data.any (fun c => !wsChar c)) := by
        rw [hp]
        exact List.mem_cons_self _ _
      exact (List.mem_filter.mp hmem).2
    simp only [hp, List.isEmpty_cons, Bool.false_eq_true, if_false, List.enum_cons]
    exact pagesGo_error_head _ _ _ _ _ _ _ hpred

/-- Witness for the amended C9 theorem. -/
theorem chunk_text_propagates_error_witness :
    ("hi".data.any (fun c => !wsChar c) = true) ∧
    chunk_text (fun _ => Except.error "nltk failure") "hi" 64 8 =
      Except.error "nltk failure" :=
  ⟨by decide, chunk_text_propagates_error "hi" "nltk failure" 64 8 (by decide)⟩

/-! ## Claims C6 and C7: the quote-truncation post-processor -/

/-- Unfolding of the quote scanner in search mode. -/
theorem scanQuotes_false_cons (c : Char) (rest acc : List Char) :
    scanQuotes false (c :: rest) acc =
      if c = '"' then scanQuotes true rest [] else scanQuotes false rest [] := rfl

/-- Unfolding of the quote scanner inside a candidate span. -/
theorem scanQuotes_true_cons (c : Char) (rest acc : List Char) :
    scanQuotes true (c :: rest) acc =
      if c = '"' then
        (if MAX_QUOTE_LENGTH ≤ acc.length then acc.reverse :: scanQuotes false rest []
         else scanQuotes true rest [])
      else scanQuotes true rest (c :: acc) := rfl

/-- Unfolding of the replace scanner on a non-empty input. -/
theorem replGo_cons (pat rep : List Char) (f : Nat) (c : Char) (rest : List Char) :
    replGo pat rep (f + 1) (c :: rest) =
      if isPre pat (c :: rest) then rep ++ replGo pat rep f ((c :: rest).drop pat.length)
      else c :: replGo pat rep f rest := rfl

/-- The replace scanner leaves an empty input alone at any fuel. -/
theorem replGo_nil (pat rep : List Char) (f : Nat) : replGo pat rep f [] = [] := by
  cases f <;> rfl

/-- The quote scanner in search mode ignores its accumulator. -/
theorem scanQuotes_false_acc (s : List Char) (acc acc' : List Char) :
    scanQuotes false s acc = scanQuotes false s acc' := by
  cases s <;> rfl

/-- The quote scanner in search mode skips a quote-free prefix. -/
theorem scanQuotes_false_skip (a : List Char) (h : '"' ∉ a) :
    ∀ s acc acc', scanQuotes false (a ++ s) acc = scanQuotes false s acc' := by
  induction a with
  | nil => intro s acc acc'; exact scanQuotes_false_acc s acc acc'
  | cons c a' ih =>
    intro s acc acc'
    have hc : ¬(c = '"') := fun hh => h (by simp [hh])
    rw [List.cons_append, scanQuotes_false_cons, if_neg hc]
    exact ih (fun hm => h (List.mem_cons_of_mem c hm)) s [] acc'

/-- No quote, no match. -/
theorem scanQuotes_false_nil (a : List Char) (acc : List Char) (h : '"' ∉ a) :
    scanQuotes false a acc = [] := by
  have h2 := scanQuotes_false_skip a h [] acc []
  simpa using h2

/-- The quote scanner inside a span accumulates a quote-free run reversed. -/
theorem scanQuotes_true_accum (q : List Char) (h : '"' ∉ q) :
    ∀ s acc, scanQuotes true (q ++ s) acc = scanQuotes true s (q.reverse ++ acc) := by
  induction q with
  | nil => intro s acc; simp
  | cons c q' ih =>
    intro s acc
    have hc : ¬(c = '"') := fun hh => h (by simp [hh])
    rw [List.cons_append, scanQuotes_true_cons, if_neg hc]
    rw [ih (fun hm => h (List.mem_cons_of_mem c hm)) s (c :: acc)]
    simp

/-- An unterminated span yields no match. -/
theorem scanQuotes_true_nil (q : List Char) (acc : List Char) (h : '"' ∉ q) :
    scanQuotes true q acc = [] := by
  have h2 := scanQuotes_true_accum q h [] acc
  simpa using h2

/-- The matches of a string with exactly one quoted span: the span's content
when it reaches `MAX_QUOTE_LENGTH`, else nothing. -/
theorem findLongQuotes_single (t0 q t2 : List Char)
    (h0 : '"' ∉ t0) (h1 : '"' ∉ q) (h2 : '"' ∉ t2) :
    findLongQuotes (t0 ++ ('"' :: (q ++ '"' :: t2))) =
      if MAX_QUOTE_LENGTH ≤ q.length then [q] else [] := by
  rw [findLongQuotes, scanQuotes_false_skip t0 h0 ('"' :: (q ++ '"' :: t2)) [] []]
  rw [scanQuotes_false_cons, if_pos rfl]
  rw [scanQuotes_true_accum q h1 ('"' :: t2) []]
  rw [scanQuotes_true_cons, if_pos rfl]
  rw [scanQuotes_false_nil t2 [] h2, scanQuotes_true_nil t2 [] h2]
  simp

/-- Fuel irrelevance for the replace scanner: any two sufficient fuels give
the same result. -/
theorem replGo_fuel (pat rep : List Char) (hpat : pat ≠ []) :
    ∀ (n : Nat) (s : List Char) (f1 f2 : Nat), s.length ≤ n → s.length ≤ f1 →
      s.length ≤ f2 → replGo pat rep f1 s = replGo pat rep f2 s := by
  have hplen : 1 ≤ pat.length := by
    cases pat with
    | nil => exact absurd rfl hpat
    | cons c cs => simp
  intro n
  induction n with
  | zero =>
    intro s f1 f2 hn _ _
    have hs : s = [] := List.length_eq_zero.mp (Nat.le_zero.mp hn)
    subst hs
    rw [replGo_nil, replGo_nil]
  | succ n ih =>
    intro s f1 f2 hn h1 h2
    cases s with
    | nil => rw [replGo_nil, replGo_nil]
    | cons c rest =>
      simp only [List.length_cons] at hn h1 h2
      obtain ⟨f1', rfl⟩ : ∃ k, f1 = k + 1 := ⟨f1 - 1, by omega⟩
      obtain ⟨f2', rfl⟩ : ∃ k, f2 = k + 1 := ⟨f2 - 1, by omega⟩
      rw [replGo_cons, replGo_cons]
      by_cases hm : isPre pat (c :: rest) = true
      · rw [if_pos hm, if_pos hm]
        congr 1
        apply ih ((c :: rest).drop pat.length) f1' f2' <;>
          simp only [List.length_drop, List.length_cons] <;> omega
      · rw [if_neg hm, if_neg hm]
        congr 1
        exact ih rest f1' f2' (by omega) (by omega) (by omega)

/-- The replace scanner walks over a quote-free prefix untouched when the
pattern starts with a quote. -/
theorem replGo_skip (pr rep : List Char) :
    ∀ (a s : List Char) (f : Nat), '"' ∉ a → (a ++ s).length ≤ f →
      replGo ('"' :: pr) rep f (a ++ s) = a ++ replGo ('"' :: pr) rep (f - a.length) s := by
  intro a
  induction a with
  | nil => intro s f _ _; rfl
  | cons c a' ih =>
    intro s f hq hf
    simp only [List.cons_append, List.length_cons, List.length_append] at hf ⊢
    obtain ⟨f', rfl⟩ : ∃ k, f = k + 1 := ⟨f - 1, by omega⟩
    have hc : ('"' == c) = false := by
      have hne : ¬(c = '"') := fun hh => hq (by simp [hh])
      simpa [beq_eq_false_iff_ne] using fun hh => hne hh.symm
    rw [replGo_cons]
    rw [if_neg (by simp [isPre, hc])]
    rw [ih s f' (fun hm => hq (List.mem_cons_of_mem c hm)) (by simp; omega)]
    rw [show f' + 1 - (a'.length + 1) = f' - a'.length from by omega]

/-- The replace scanner fires on the pattern at the head. -/
theorem replGo_match (pat rep s : List Char) (f : Nat) (hpat : pat ≠ [])
    (hf : (pat ++ s).length ≤ f) :
    replGo pat rep f (pat ++ s) = rep ++ replGo pat rep (f - 1) s := by
  obtain ⟨p0, pr, rfl⟩ : ∃ p0 pr, pat = p0 :: pr := by
    cases pat with
    | nil => exact absurd rfl hpat
    | cons p0 pr => exact ⟨p0, pr, rfl⟩
  simp only [List.cons_append, List.length_cons, List.length_append] at hf ⊢
  obtain ⟨f', rfl⟩ : ∃ k, f = k + 1 := ⟨f - 1, by omega⟩
  rw [replGo_cons, if_pos (by simpa using isPre_self_append (p0 :: pr) s)]
  simp only [List.length_cons, List.drop_succ_cons, List.drop_left, Nat.add_sub_cancel]

/-- With no quote in the input and a quote-initial pattern, replacement is
the identity. -/
theorem replGo_nomatch (pr rep s : List Char) (f : Nat) (h : '"' ∉ s) (hf : s.length ≤ f) :
    replGo ('"' :: pr) rep f s = s := by
  have h2 := replGo_skip pr rep s [] f h (by simpa using hf)
  simpa [replGo_nil] using h2

/-- Replacing a quote-delimited pattern occurring exactly once between
quote-free flanks. -/
theorem replaceAll_single (t0 t2 pr rep : List Char) (h0 : '"' ∉ t0) (h2 : '"' ∉ t2) :
    replaceAll (t0 ++ (('"' :: pr) ++ t2)) ('"' :: pr) rep = t0 ++ (rep ++ t2) := by
  rw [replaceAll]
  rw [replGo_skip pr rep t0 (('"' :: pr) ++ t2) _ h0 (le_refl _)]
  rw [replGo_match ('"' :: pr) rep t2 _ (by simp)
    (by simp only [List.length_append, List.length_cons]; omega)]
  rw [replGo_nomatch pr rep t2 _ h2
    (by simp only [List.length_append, List.length_cons]; omega)]

/-- A string with no long quoted span is left unchanged. -/
theorem sanitizeCore_nil_matches (s : List Char) (h : findLongQuotes s = []) :
    sanitizeCore s = s := by
  rw [sanitizeCore, h]
  rfl

/-- C6 amended: on a string with exactly one double-quoted span, the
post-processor truncates the span's content to its first
`MAX_QUOTE_LENGTH - 3` characters plus an ellipsis when the content length
is at least `MAX_QUOTE_LENGTH = 150` — not only when it exceeds it — and
leaves the span untouched when the content is shorter, preserving the
quotation marks and the flanks in both cases. -/
theorem sanitize_single_span (t0 q t2 : List Char)
    (h0 : '"' ∉ t0) (h1 : '"' ∉ q) (h2 : '"' ∉ t2) :
    sanitizeCore (t0 ++ ('"' :: (q ++ '"' :: t2))) =
      t0 ++ ('"' :: ((if MAX_QUOTE_LENGTH ≤ q.length then truncQuote q else q) ++ '"' :: t2)) := by
  rw [sanitizeCore, findLongQuotes_single t0 q t2 h0 h1 h2]
  by_cases hlen : MAX_QUOTE_LENGTH ≤ q.length
  · rw [if_pos hlen, if_pos hlen]
    simp only [List.foldl_cons, List.foldl_nil, List.cons_append]
    rw [show t0 ++ ('"' :: (q ++ '"' :: t2)) = t0 ++ (('"' :: (q ++ ['"'])) ++ t2) from by simp]
    rw [replaceAll_single t0 t2 (q ++ ['"']) ('"' :: (truncQuote q ++ ['"'])) h0 h2]
    simp
  · rw [if_neg hlen, if_neg hlen]
    rfl

/-- C6 counterexample: a double-quoted span whose content length is exactly
150 is truncated by the post-processor, although the claim says only spans
exceeding 150 characters are touched and spans of length at most 150 are
left untouched. -/
theorem sanitize_truncates_length_150 :
    sanitizeCore ('"' :: (List.replicate 150 'D' ++ ['"'])) =
      '"' :: ((List.replicate 147 'D' ++ ['.', '.', '.']) ++ ['"']) ∧
    sanitizeCore ('"' :: (List.replicate 150 'D' ++ ['"'])) ≠
      '"' :: (List.replicate 150 'D' ++ ['"']) := by
  refine ⟨by decide, by decide⟩

/-- Witness for the amended C6 theorem: a 151-character span between
quote-free flanks is truncated with the quotes preserved. -/
theorem sanitize_single_span_witness :
    ('"' ∉ ['x'] ∧ '"' ∉ List.replicate 151 'E' ∧ '"' ∉ ['y']) ∧
    sanitizeCore (['x'] ++ ('"' :: (List.replicate 151 'E' ++ '"' :: ['y']))) =
      ['x'] ++ ('"' :: ((if MAX_QUOTE_LENGTH ≤ (List.replicate 151 'E').length then
        truncQuote (List.replicate 151 'E') else List.replicate 151 'E') ++ '"' :: ['y'])) :=
  ⟨⟨by decide, by decide, by decide⟩,
    sanitize_single_span ['x'] (List.replicate 151 'E') ['y'] (by decide) (by decide) (by decide)⟩

/-- Decomposition of a string containing exactly one quote character. -/
theorem quote_decomp_one (s : List Char) (h : s.count '"' = 1) :
    ∃ a b, s = a ++ ('"' :: b) ∧ '"' ∉ a ∧ '"' ∉ b := by
  induction s with
  | nil => simp at h
  | cons c rest ih =>
    by_cases hc : c = '"'
    · subst hc
      have h0 : rest.count '"' = 0 := by
        rw [List.count_cons] at h
        simp at h
        omega
      exact ⟨[], rest, rfl, by simp, List.count_eq_zero.mp h0⟩
    · have h1 : rest.count '"' = 1 := by
        rw [List.count_cons] at h
        simp [show ¬(c == '"') = true from by simp [hc]] at h
        exact h
      obtain ⟨a, b, rfl, ha, hb⟩ := ih h1
      exact ⟨c :: a, b, rfl, by simp [ha]; exact fun hh => hc hh.symm, hb⟩

/-- Decomposition of a string containing exactly two quote characters. -/
theorem quote_decomp_two (s : List Char) (h : s.count '"' = 2) :
    ∃ t0 q t2, s = t0 ++ ('"' :: (q ++ '"' :: t2)) ∧ '"' ∉ t0 ∧ '"' ∉ q ∧ '"' ∉ t2 := by
  induction s with
  | nil => simp at h
  | cons c rest ih =>
    by_cases hc : c = '"'
    · subst hc
      have h1 : rest.count '"' = 1 := by
        rw [List.count_cons] at h
        simp at h
        omega
      obtain ⟨a, b, rfl, ha, hb⟩ := quote_decomp_one rest h1
      exact ⟨[], a, b, by simp, by simp, ha, hb⟩
    · have h2 : rest.count '"' = 2 := by
        rw [List.count_cons] at h
        simp [show ¬(c == '"') = true from by simp [hc]] at h
        exact h
      obtain ⟨t0, q, t2, rfl, h0, hq, ht⟩ := ih h2
      exact ⟨c :: t0, q, t2, rfl, by simp [h0]; exact fun hh => hc hh.symm, hq, ht⟩

/-- Truncation is idempotent on long contents and yields a content of
length exactly `MAX_QUOTE_LENGTH`. -/
theorem truncQuote_idem (q : List Char) (h : MAX_QUOTE_LENGTH ≤ q.length) :
    truncQuote (truncQuote q) = truncQuote q ∧
    MAX_QUOTE_LENGTH ≤ (truncQuote q).length := by
  have h147 : (q.take (MAX_QUOTE_LENGTH - 3)).length = MAX_QUOTE_LENGTH - 3 := by
    simp only [List.length_take, MAX_QUOTE_LENGTH] at *
    omega
  constructor
  · rw [truncQuote, truncQuote, List.take_append_eq_append_take, h147]
    rw [List.take_of_length_le (le_of_eq h147)]
    simp
  · rw [truncQuote]
    simp only [List.length_append, h147, MAX_QUOTE_LENGTH] at *
    simp

/-- No quote appears in a truncated content of a quote-free content. -/
theorem truncQuote_no_quote (q : List Char) (h : '"' ∉ q) : '"' ∉ truncQuote q := by
  intro hmem
  rw [truncQuote] at hmem
  rcases List.mem_append.mp hmem with hx | hx
  · exact h (List.mem_of_mem_take hx)
  · simp at hx

/-- C7 amended: the post-processor is idempotent on every string containing
at most two quote characters (so at most one double-quoted span).  With more
quotes it can fail to be idempotent, because a replace-all can consume the
closing quote of a matched span as the opening quote of a later equal span;
see the counterexample. -/
theorem sanitize_idempotent_two_quotes (s : List Char) (h : s.count '"' ≤ 2) :
    sanitizeCore (sanitizeCore s) = sanitizeCore s := by
  have h012 : s.count '"' = 0 ∨ s.count '"' = 1 ∨ s.count '"' = 2 := by omega
  rcases h012 with h0 | h1 | h2
  · have hnm : '"' ∉ s := List.count_eq_zero.mp h0
    have hid : sanitizeCore s = s := by
      apply sanitizeCore_nil_matches
      rw [findLongQuotes]
      exact scanQuotes_false_nil s [] hnm
    rw [hid, hid]
  · obtain ⟨a, b, rfl, ha, hb⟩ := quote_decomp_one s h1
    have hfl : findLongQuotes (a ++ ('"' :: b)) = [] := by
      rw [findLongQuotes, scanQuotes_false_skip a ha ('"' :: b) [] []]
      rw [scanQuotes_false_cons, if_pos rfl]
      exact scanQuotes_true_nil b [] hb
    have hid : sanitizeCore (a ++ ('"' :: b)) = a ++ ('"' :: b) :=
      sanitizeCore_nil_matches _ hfl
    rw [hid, hid]
  · obtain ⟨t0, q, t2, rfl, h0, hq, ht⟩ := quote_decomp_two s h2
    rw [sanitize_single_span t0 q t2 h0 hq ht]
    by_cases hlen : MAX_QUOTE_LENGTH ≤ q.length
    · rw [if_pos hlen]
      obtain ⟨hidem, hlen2⟩ := truncQuote_idem q hlen
      rw [sanitize_single_span t0 (truncQuote q) t2 h0 (truncQuote_no_quote q hq) ht]
      rw [if_pos hlen2, hidem]
    · rw [if_neg hlen]
      rw [sanitize_single_span t0 q t2 h0 hq ht, if_neg hlen]

/-- Witness for the amended C7 theorem on a two-quote string with a long
span. -/
theorem sanitize_idempotent_two_quotes_witness :
    (('a' :: ('"' :: (List.replicate 160 'F' ++ ['"', 'b']))).count '"' ≤ 2) ∧
    sanitizeCore (sanitizeCore ('a' :: ('"' :: (List.replicate 160 'F' ++ ['"', 'b'])))) =
      sanitizeCore ('a' :: ('"' :: (List.replicate 160 'F' ++ ['"', 'b']))) :=
  ⟨by decide, sanitize_idempotent_two_quotes _ (by decide)⟩

/-- The concrete C7 counterexample input: spans of 150 d characters, then
151 c characters, then 151 c characters, sharing quotes pairwise. -/
def quoteTrap : List Char :=
  '"' :: (List.replicate 150 'd' ++ ('"' :: (List.replicate 151 'c' ++
    ('"' :: (List.replicate 151 'c' ++ ['"'])))))

/-- C7 counterexample: the post-processor is not idempotent.  On `quoteTrap`
the findall pairing matches the d span and the SECOND c span, but the
replace-all for the c pattern rewrites the FIRST c occurrence and consumes
its closing quote, leaving the second c span full length; the second pass
then truncates it, so running the post-processor twice differs from running
it once. -/
theorem sanitize_not_idempotent :
    sanitizeCore (sanitizeCore quoteTrap) ≠ sanitizeCore quoteTrap := by decide

/-! ## Claims C3 and C4: the vault round trip

The serializer/parser round trip is proved by fuel induction; the digit,
escape and whitespace layers get dedicated lemmas first. -/

/-- Digit characters are digits with the expected code points. -/
theorem digitChar_toNat (n : Nat) (h : n ≤ 9) : (digitChar n).toNat = 48 + n := by
  interval_cases n <;> decide

/-- Digit characters satisfy `Char.isDigit`. -/
theorem digitChar_isDigit (n : Nat) (h : n ≤ 9) : (digitChar n).isDigit = true := by
  interval_cases n <;> decide

/-- Nonzero digits do not render as the zero character. -/
theorem digitChar_ne_zero (n : Nat) (h1 : 1 ≤ n) (h9 : n ≤ 9) : ¬ digitChar n = '0' := by
  interval_cases n <;> decide

/-- Code-point bounds of a digit character. -/
theorem isDigit_toNat (c : Char) (h : c.isDigit = true) : 48 ≤ c.toNat ∧ c.toNat ≤ 57 := by
  simp [Char.isDigit] at h
  exact ⟨h.1, h.2⟩

/-- Master lemma on the digit renderer: all output characters are digits,
folding the digits back recovers the number, and the leading digit is
nonzero for a positive number. -/
theorem natDigitsAux_master : ∀ f n, n ≤ f →
    (∀ c ∈ natDigitsAux f n, c.isDigit = true) ∧
    (∀ a : Nat, List.foldl (fun a c => a * 10 + (c.toNat - 48)) a (natDigitsAux f n).reverse =
      a * 10 ^ (natDigitsAux f n).length + n) ∧
    (∃ c cs, (natDigitsAux f n).reverse = c :: cs ∧ (1 ≤ n → ¬ c = '0')) := by
  intro f
  induction f with
  | zero =>
    intro n hn
    have hn0 : n = 0 := by omega
    subst hn0
    refine ⟨?_, ?_, ⟨digitChar 0, [], by rfl, fun hh => absurd hh (by omega)⟩⟩
    · intro c hc
      have : c = digitChar (0 % 10) := List.mem_singleton.mp hc
      subst this
      exact digitChar_isDigit 0 (by omega)
    · intro a
      show a * 10 + ((digitChar (0 % 10)).toNat - 48) = a * 10 ^ 1 + 0
      rw [show (0 : Nat) % 10 = 0 from rfl, digitChar_toNat 0 (by omega), pow_one]
  | succ f ih =>
    intro n hn
    by_cases hlt : n < 10
    · have he : natDigitsAux (f + 1) n = [digitChar n] := by
        rw [natDigitsAux, if_pos hlt]
      rw [he]
      refine ⟨?_, ?_, ⟨digitChar n, [], by rfl, fun h1 => digitChar_ne_zero n h1 (by omega)⟩⟩
      · intro c hc
        have : c = digitChar n := List.mem_singleton.mp hc
        subst this
        exact digitChar_isDigit n (by omega)
      · intro a
        show a * 10 + ((digitChar n).toNat - 48) = a * 10 ^ 1 + n
        rw [digitChar_toNat n (by omega), pow_one]
        omega
    · have hdivle : n / 10 ≤ f := by
        have := Nat.div_lt_self (by omega : 0 < n) (by omega : 1 < 10)
        omega
      have he : natDigitsAux (f + 1) n = digitChar (n % 10) :: natDigitsAux f (n / 10) := by
        rw [natDigitsAux, if_neg hlt]
      obtain ⟨ha, hb, c, cs, hrev, hc0⟩ := ih (n / 10) hdivle
      rw [he]
      have hmod : n % 10 ≤ 9 := by omega
      refine ⟨?_, ?_, ⟨c, cs ++ [digitChar (n % 10)], ?_, fun _ => hc0 (by omega)⟩⟩
      · intro d hd
        rcases List.mem_cons.mp hd with hd | hd
        · subst hd
          exact digitChar_isDigit _ hmod
        · exact ha d hd
      · intro a
        rw [List.reverse_cons, List.foldl_append, hb a]
        simp only [List.foldl_cons, List.foldl_nil, List.length_cons,
          List.length_reverse]
        rw [digitChar_toNat _ hmod]
        have hdm : 10 * (n / 10) + n % 10 = n := Nat.div_add_mod n 10
        rw [pow_succ]
        ring_nf
        omega
      · rw [List.reverse_cons, hrev]
        rfl

/-- The decimal rendering of a natural number: every character is a digit,
folding recovers the number, and the head digit is nonzero when the number
is positive. -/
theorem natChars_spec (n : Nat) :
    (∀ c ∈ natChars n, c.isDigit = true) ∧
    digitsToNat (natChars n) = n ∧
    ∃ c cs, natChars n = c :: cs ∧ c.isDigit = true ∧ (1 ≤ n → ¬ c = '0') := by
  obtain ⟨ha, hb, c, cs, hrev, hc0⟩ := natDigitsAux_master n n (le_refl n)
  have hmemrev : ∀ d, d ∈ natChars n → d ∈ natDigitsAux n n := by
    intro d hd
    exact List.mem_reverse.mp hd
  refine ⟨fun d hd => ha d (hmemrev d hd), ?_, c, cs, hrev, ?_, hc0⟩
  · rw [digitsToNat, natChars, hb 0]
    simp
  · have : c ∈ natChars n := by
      rw [natChars, hrev]
      exact List.mem_cons_self _ _
    exact ha c (hmemrev c this)

/-- `takeWhile`/`dropWhile` across a fully satisfying prefix followed by a
failing head. -/
theorem takeWhile_all_append (p : Char → Bool) (xs ys : List Char)
    (hall : ∀ c ∈ xs, p c = true)
    (hhd : ys = [] ∨ ∃ d ds, ys = d :: ds ∧ p d = false) :
    (xs ++ ys).takeWhile p = xs ∧ (xs ++ ys).dropWhile p = ys := by
  induction xs with
  | nil =>
    simp only [List.nil_append]
    rcases hhd with rfl | ⟨d, ds, rfl, hd⟩
    · exact ⟨rfl, rfl⟩
    · rw [List.takeWhile_cons, List.dropWhile_cons, if_neg (by simp [hd]), if_neg (by simp [hd])]
      exact ⟨rfl, rfl⟩
  | cons x xs ih =>
    have hx : p x = true := hall x (List.mem_cons_self _ _)
    obtain ⟨iht, ihd⟩ := ih (fun c hc => hall c (List.mem_cons_of_mem x hc))
    constructor
    · rw [List.cons_append, List.takeWhile_cons, if_pos hx, iht]
    · rw [List.cons_append, List.dropWhile_cons, if_pos hx, ihd]

/-- Unfolding of the unsigned number parser. -/
theorem parseNatJson_cons (c : Char) (rest : List Char) :
    parseNatJson (c :: rest) =
      if c = '0' then some (0, rest)
      else if c.isDigit then
        some (digitsToNat ((c :: rest).takeWhile Char.isDigit),
          (c :: rest).dropWhile Char.isDigit)
      else none := rfl

/-- The unsigned number parser inverts the decimal renderer when the
remainder does not begin with a digit. -/
theorem parseNatJson_natChars (n : Nat) (rest : List Char)
    (hrest : rest = [] ∨ ∃ d ds, rest = d :: ds ∧ d.isDigit = false) :
    parseNatJson (natChars n ++ rest) = some (n, rest) := by
  obtain ⟨hdig, hval, c, cs, hcons, hcd, hzero⟩ := natChars_spec n
  by_cases hn : n = 0
  · subst hn
    rw [show natChars 0 = ['0'] from by decide]
    rw [List.cons_append, parseNatJson_cons, if_pos rfl]
    simp
  · rw [hcons, List.cons_append, parseNatJson_cons,
      if_neg (hzero (by omega)), if_pos hcd]
    obtain ⟨htw, hdw⟩ := takeWhile_all_append Char.isDigit (c :: cs) rest
      (by rw [← hcons]; exact hdig) hrest
    rw [← List.cons_append, htw, hdw, ← hcons, hval]

/-- Unfolding of the fraction/exponent rejector on a non-empty remainder. -/
theorem checkNoFrac_cons (v : Int) (d : Char) (ds : List Char) :
    checkNoFrac v (d :: ds) =
      if d = '.' ∨ d = 'e' ∨ d = 'E' then none else some (v, d :: ds) := rfl

/-- After a value, serialized output continues with a delimiter (or ends). -/
def delimOk (rest : List Char) : Prop :=
  rest = [] ∨ ∃ d ds, rest = d :: ds ∧ (d = ',' ∨ d = ']' ∨ d = Char.ofNat 125)

/-- A delimiter never starts a fraction or exponent. -/
theorem checkNoFrac_delim (v : Int) (rest : List Char) (hrest : delimOk rest) :
    checkNoFrac v rest = some (v, rest) := by
  rcases hrest with rfl | ⟨d, ds, rfl, hd⟩
  · rfl
  · rcases hd with rfl | rfl | rfl <;> rw [checkNoFrac_cons, if_neg (by decide)]

/-- A delimiter is not a digit. -/
theorem delimOk_not_digit (rest : List Char) (hrest : delimOk rest) :
    rest = [] ∨ ∃ d ds, rest = d :: ds ∧ d.isDigit = false := by
  rcases hrest with rfl | ⟨d, ds, rfl, hd⟩
  · exact Or.inl rfl
  · refine Or.inr ⟨d, ds, rfl, ?_⟩
    rcases hd with rfl | rfl | rfl <;> decide

/-- The signed number parser inverts the integer renderer before a
delimiter. -/
theorem parseIntJson_intChars (n : Int) (rest : List Char) (hrest : delimOk rest) :
    parseIntJson (intChars n ++ rest) = some (n, rest) := by
  have hrest' := delimOk_not_digit rest hrest
  by_cases hneg : n < 0
  · rw [intChars, if_pos hneg, List.cons_append]
    rw [show parseIntJson ('-' :: (natChars n.natAbs ++ rest)) =
      (match parseNatJson (natChars n.natAbs ++ rest) with
       | some (m, r) => checkNoFrac (-(m : Int)) r
       | none => none) from rfl]
    rw [parseNatJson_natChars n.natAbs rest hrest']
    rw [show (match (some (n.natAbs, rest) : Option (Nat × List Char)) with
       | some (m, r) => checkNoFrac (-(m : Int)) r
       | none => none) = checkNoFrac (-(n.natAbs : Int)) rest from rfl]
    rw [checkNoFrac_delim]
    · congr 1
      rw [Prod.mk.injEq]
      constructor
      · omega
      · rfl
    · exact hrest
  · rw [intChars, if_neg hneg]
    obtain ⟨hdig, hval, c, cs, hcons, hcd, hzero⟩ := natChars_spec n.toNat
    rw [hcons, List.cons_append]
    have hcne : ¬(c = '-') := by
      intro hh
      rw [hh] at hcd
      exact absurd hcd (by decide)
    rw [show parseIntJson (c :: (cs ++ rest)) =
      (if c = '-' then
        match parseNatJson (cs ++ rest) with
        | some (m, r) => checkNoFrac (-(m : Int)) r
        | none => none
      else
        match parseNatJson (c :: (cs ++ rest)) with
        | some (m, r) => checkNoFrac (m : Int) r
        | none => none) from rfl]
    rw [if_neg hcne, ← List.cons_append, ← hcons]
    rw [parseNatJson_natChars n.toNat rest hrest']
    rw [show (match (some (n.toNat, rest) : Option (Nat × List Char)) with
       | some (m, r) => checkNoFrac (m : Int) r
       | none => none) = checkNoFrac (n.toNat : Int) rest from rfl]
    rw [checkNoFrac_delim]
    · congr 1
      rw [Prod.mk.injEq]
      constructor
      · omega
      · rfl
    · exact hrest

/-- Unfolding of the string-body parser. -/
theorem parseStrLoop_cons (c : Char) (rest : List Char) :
    parseStrLoop (c :: rest) =
      if c = '"' then some ([], rest)
      else if c = '\\' then parseEsc rest
      else if c.toNat < 32 then none
      else consRes c (parseStrLoop rest) := rfl

/-- Prepending a decoded character to a successful parse. -/
theorem consRes_some (ch : Char) (cs r : List Char) :
    consRes ch (some (cs, r)) = some (ch :: cs, r) := rfl

/-- Hex digits round-trip through the renderer. -/
theorem hexValD_hexDigitChar (k : Nat) (h : k < 16) : hexValD (hexDigitChar k) = k := by
  interval_cases k <;> decide

/-- Reassembling the four nibbles of a code unit. -/
theorem hex4_value (n : Nat) (h : n < 65536) :
    n / 4096 % 16 * 4096 + n / 256 % 16 * 256 + n / 16 % 16 * 16 + n % 16 = n := by
  omega

/-- The unicode-escape parser on four rendered hex digits. -/
theorem parseU_hex4 (n : Nat) (hn : n < 65536) (t : List Char) :
    parseU (hex4 n ++ t) =
      (if 55296 ≤ n ∧ n ≤ 56319 then parseLowSur n t
       else if 56320 ≤ n ∧ n ≤ 57343 then none
       else consRes (Char.ofNat n) (parseStrLoop t)) := by
  have e1 : hexValD (hexDigitChar (n / 4096 % 16)) = n / 4096 % 16 :=
    hexValD_hexDigitChar _ (Nat.mod_lt _ (by omega))
  have e2 : hexValD (hexDigitChar (n / 256 % 16)) = n / 256 % 16 :=
    hexValD_hexDigitChar _ (Nat.mod_lt _ (by omega))
  have e3 : hexValD (hexDigitChar (n / 16 % 16)) = n / 16 % 16 :=
    hexValD_hexDigitChar _ (Nat.mod_lt _ (by omega))
  have e4 : hexValD (hexDigitChar (n % 16)) = n % 16 :=
    hexValD_hexDigitChar _ (Nat.mod_lt _ (by omega))
  rw [show hex4 n ++ t = hexDigitChar (n / 4096 % 16) :: hexDigitChar (n / 256 % 16) ::
    hexDigitChar (n / 16 % 16) :: hexDigitChar (n % 16) :: t from rfl]
  rw [show parseU (hexDigitChar (n / 4096 % 16) :: hexDigitChar (n / 256 % 16) ::
      hexDigitChar (n / 16 % 16) :: hexDigitChar (n % 16) :: t) =
    (if hexValD (hexDigitChar (n / 4096 % 16)) < 16 ∧ hexValD (hexDigitChar (n / 256 % 16)) < 16 ∧
        hexValD (hexDigitChar (n / 16 % 16)) < 16 ∧ hexValD (hexDigitChar (n % 16)) < 16 then
      if 55296 ≤ hexValD (hexDigitChar (n / 4096 % 16)) * 4096 +
          hexValD (hexDigitChar (n / 256 % 16)) * 256 +
          hexValD (hexDigitChar (n / 16 % 16)) * 16 + hexValD (hexDigitChar (n % 16)) ∧
          hexValD (hexDigitChar (n / 4096 % 16)) * 4096 +
          hexValD (hexDigitChar (n / 256 % 16)) * 256 +
          hexValD (hexDigitChar (n / 16 % 16)) * 16 + hexValD (hexDigitChar (n % 16)) ≤ 56319 then
        parseLowSur (hexValD (hexDigitChar (n / 4096 % 16)) * 4096 +
          hexValD (hexDigitChar (n / 256 % 16)) * 256 +
          hexValD (hexDigitChar (n / 16 % 16)) * 16 + hexValD (hexDigitChar (n % 16))) t
      else if 56320 ≤ hexValD (hexDigitChar (n / 4096 % 16)) * 4096 +
          hexValD (hexDigitChar (n / 256 % 16)) * 256 +
          hexValD (hexDigitChar (n / 16 % 16)) * 16 + hexValD (hexDigitChar (n % 16)) ∧
          hexValD (hexDigitChar (n / 4096 % 16)) * 4096 +
          hexValD (hexDigitChar (n / 256 % 16)) * 256 +
          hexValD (hexDigitChar (n / 16 % 16)) * 16 + hexValD (hexDigitChar (n % 16)) ≤ 57343 then
        none
      else
        consRes (Char.ofNat (hexValD (hexDigitChar (n / 4096 % 16)) * 4096 +
          hexValD (hexDigitChar (n / 256 % 16)) * 256 +
          hexValD (hexDigitChar (n / 16 % 16)) * 16 + hexValD (hexDigitChar (n % 16))))
          (parseStrLoop t)
    else none) from rfl]
  rw [e1, e2, e3, e4, hex4_value n hn]
  rw [if_pos ⟨by omega, by omega, by omega, by omega⟩]

/-- The low-surrogate parser on a rendered escape. -/
theorem parseLowSur_hex4 (nv m : Nat) (hm : m < 65536) (t : List Char) :
    parseLowSur nv ('\\' :: 'u' :: (hex4 m ++ t)) =
      (if 56320 ≤ m ∧ m ≤ 57343 then
        consRes (Char.ofNat (65536 + (nv - 55296) * 1024 + (m - 56320))) (parseStrLoop t)
       else none) := by
  have e1 : hexValD (hexDigitChar (m / 4096 % 16)) = m / 4096 % 16 :=
    hexValD_hexDigitChar _ (Nat.mod_lt _ (by omega))
  have e2 : hexValD (hexDigitChar (m / 256 % 16)) = m / 256 % 16 :=
    hexValD_hexDigitChar _ (Nat.mod_lt _ (by omega))
  have e3 : hexValD (hexDigitChar (m / 16 % 16)) = m / 16 % 16 :=
    hexValD_hexDigitChar _ (Nat.mod_lt _ (by omega))
  have e4 : hexValD (hexDigitChar (m % 16)) = m % 16 :=
    hexValD_hexDigitChar _ (Nat.mod_lt _ (by omega))
  rw [show ('\\' :: 'u' :: (hex4 m ++ t)) = '\\' :: 'u' :: hexDigitChar (m / 4096 % 16) ::
    hexDigitChar (m / 256 % 16) :: hexDigitChar (m / 16 % 16) :: hexDigitChar (m % 16) :: t
    from rfl]
  rw [show parseLowSur nv ('\\' :: 'u' :: hexDigitChar (m / 4096 % 16) ::
      hexDigitChar (m / 256 % 16) :: hexDigitChar (m / 16 % 16) :: hexDigitChar (m % 16) :: t) =
    (if hexValD (hexDigitChar (m / 4096 % 16)) < 16 ∧
        hexValD (hexDigitChar (m / 256 % 16)) < 16 ∧
        hexValD (hexDigitChar (m / 16 % 16)) < 16 ∧ hexValD (hexDigitChar (m % 16)) < 16 then
      if 56320 ≤ hexValD (hexDigitChar (m / 4096 % 16)) * 4096 +
          hexValD (hexDigitChar (m / 256 % 16)) * 256 +
          hexValD (hexDigitChar (m / 16 % 16)) * 16 + hexValD (hexDigitChar (m % 16)) ∧
          hexValD (hexDigitChar (m / 4096 % 16)) * 4096 +
          hexValD (hexDigitChar (m / 256 % 16)) * 256 +
          hexValD (hexDigitChar (m / 16 % 16)) * 16 + hexValD (hexDigitChar (m % 16)) ≤ 57343 then
        consRes (Char.ofNat (65536 + (nv - 55296) * 1024 +
          (hexValD (hexDigitChar (m / 4096 % 16)) * 4096 +
           hexValD (hexDigitChar (m / 256 % 16)) * 256 +
           hexValD (hexDigitChar (m / 16 % 16)) * 16 + hexValD (hexDigitChar (m % 16)) - 56320)))
          (parseStrLoop t)
      else none
    else none) from rfl]
  rw [e1, e2, e3, e4, hex4_value m hm]
  rw [if_pos ⟨by omega, by omega, by omega, by omega⟩]

/-- Unfolding of the unicode-escape entry. -/
theorem parseStr_u (z : List Char) :
    parseStrLoop ('\\' :: 'u' :: z) = parseU z := rfl

/-- Zeta-reduced unfolding of the serializer's character escape. -/
theorem escapeChar_eq (c : Char) :
    escapeChar c =
      (if c.toNat = 34 then ['\\', '"']
       else if c.toNat = 92 then ['\\', '\\']
       else if c.toNat = 10 then ['\\', 'n']
       else if c.toNat = 9 then ['\\', 't']
       else if c.toNat = 13 then ['\\', 'r']
       else if c.toNat = 8 then ['\\', 'b']
       else if c.toNat = 12 then ['\\', 'f']
       else if 32 ≤ c.toNat ∧ c.toNat ≤ 126 then [c]
       else if c.toNat < 65536 then '\\' :: 'u' :: hex4 c.toNat
       else ('\\' :: 'u' :: hex4 (55296 + (c.toNat - 65536) / 1024)) ++
            ('\\' :: 'u' :: hex4 (56320 + (c.toNat - 65536) % 1024))) := rfl

/-- The string-body parser decodes one escaped character and continues. -/
theorem escapeChar_parse (c : Char) (t cs r : List Char) (h : parseStrLoop t = some (cs, r)) :
    parseStrLoop (escapeChar c ++ t) = some (c :: cs, r) := by
  by_cases h34 : c.toNat = 34
  · have hc : c = '"' := by rw [char_eq_of_toNat c 34 h34]
    subst hc
    rw [show escapeChar '"' ++ t = '\\' :: '"' :: t from rfl]
    rw [show parseStrLoop ('\\' :: '"' :: t) = consRes '"' (parseStrLoop t) from rfl, h,
      consRes_some]
  · by_cases h92 : c.toNat = 92
    · have hc : c = '\\' := by rw [char_eq_of_toNat c 92 h92]
      subst hc
      rw [show escapeChar '\\' ++ t = '\\' :: '\\' :: t from rfl]
      rw [show parseStrLoop ('\\' :: '\\' :: t) = consRes '\\' (parseStrLoop t) from rfl, h,
        consRes_some]
    · by_cases h10 : c.toNat = 10
      · have hc : c = '\n' := by rw [char_eq_of_toNat c 10 h10]
        subst hc
        rw [show escapeChar '\n' ++ t = '\\' :: 'n' :: t from rfl]
        rw [show parseStrLoop ('\\' :: 'n' :: t) = consRes '\n' (parseStrLoop t) from rfl, h,
          consRes_some]
      · by_cases h9 : c.toNat = 9
        · have hc : c = '\t' := by rw [char_eq_of_toNat c 9 h9]
          subst hc
          rw [show escapeChar '\t' ++ t = '\\' :: 't' :: t from rfl]
          rw [show parseStrLoop ('\\' :: 't' :: t) = consRes '\t' (parseStrLoop t) from rfl, h,
            consRes_some]
        · by_cases h13 : c.toNat = 13
          · have hc : c = '\r' := by rw [char_eq_of_toNat c 13 h13]
            subst hc
            rw [show escapeChar '\r' ++ t = '\\' :: 'r' :: t from rfl]
            rw [show parseStrLoop ('\\' :: 'r' :: t) = consRes '\r' (parseStrLoop t) from rfl, h,
              consRes_some]
          · by_cases h8 : c.toNat = 8
            · have hc : c = Char.ofNat 8 := char_eq_of_toNat c 8 h8
              subst hc
              rw [show escapeChar (Char.ofNat 8) ++ t = '\\' :: 'b' :: t from rfl]
              rw [show parseStrLoop ('\\' :: 'b' :: t) =
                consRes (Char.ofNat 8) (parseStrLoop t) from rfl, h, consRes_some]
            · by_cases h12 : c.toNat = 12
              · have hc : c = Char.ofNat 12 := char_eq_of_toNat c 12 h12
                subst hc
                rw [show escapeChar (Char.ofNat 12) ++ t = '\\' :: 'f' :: t from rfl]
                rw [show parseStrLoop ('\\' :: 'f' :: t) =
                  consRes (Char.ofNat 12) (parseStrLoop t) from rfl, h, consRes_some]
              · by_cases hpr : 32 ≤ c.toNat ∧ c.toNat ≤ 126
                · rw [escapeChar_eq, if_neg h34, if_neg h92, if_neg h10, if_neg h9,
                    if_neg h13, if_neg h8, if_neg h12, if_pos hpr]
                  rw [show [c] ++ t = c :: t from rfl, parseStrLoop_cons]
                  rw [if_neg (show ¬(c = '"') from fun hh => h34 (by rw [hh]; rfl))]
                  rw [if_neg (show ¬(c = '\\') from fun hh => h92 (by rw [hh]; rfl))]
                  rw [if_neg (show ¬(c.toNat < 32) from by omega)]
                  rw [h, consRes_some]
                · by_cases hlt : c.toNat < 65536
                  · rw [escapeChar_eq, if_neg h34, if_neg h92, if_neg h10, if_neg h9,
                      if_neg h13, if_neg h8, if_neg h12, if_neg hpr, if_pos hlt]
                    rw [show ('\\' :: 'u' :: hex4 c.toNat) ++ t =
                      '\\' :: 'u' :: (hex4 c.toNat ++ t) from rfl]
                    rw [parseStr_u, parseU_hex4 c.toNat hlt t]
                    rcases char_valid_nat c with hv | hv
                    · rw [if_neg (by omega), if_neg (by omega), Char.ofNat_toNat, h, consRes_some]
                    · rw [if_neg (by omega), if_neg (by omega), Char.ofNat_toNat, h, consRes_some]
                  · have hv : 57343 < c.toNat ∧ c.toNat < 1114112 := by
                      rcases char_valid_nat c with hv | hv
                      · omega
                      · exact hv
                    rw [escapeChar_eq, if_neg h34, if_neg h92, if_neg h10, if_neg h9,
                      if_neg h13, if_neg h8, if_neg h12, if_neg hpr, if_neg hlt]
                    rw [show (('\\' :: 'u' :: hex4 (55296 + (c.toNat - 65536) / 1024)) ++
                        ('\\' :: 'u' :: hex4 (56320 + (c.toNat - 65536) % 1024))) ++ t =
                      '\\' :: 'u' :: (hex4 (55296 + (c.toNat - 65536) / 1024) ++
                        ('\\' :: 'u' :: (hex4 (56320 + (c.toNat - 65536) % 1024) ++ t)))
                      from by simp]
                    rw [parseStr_u, parseU_hex4 _ (by omega) _]
                    rw [if_pos ⟨by omega, by omega⟩]
                    rw [parseLowSur_hex4 _ _ (by omega) t]
                    rw [if_pos ⟨by omega, by omega⟩]
                    rw [show 65536 + (55296 + (c.toNat - 65536) / 1024 - 55296) * 1024 +
                      (56320 + (c.toNat - 65536) % 1024 - 56320) = c.toNat from by omega]
                    rw [Char.ofNat_toNat, h, consRes_some]

/-- The string-body parser decodes a fully escaped body up to the closing
quote. -/
theorem parseStrLoop_escBody (s : List Char) :
    ∀ t, parseStrLoop (escBody s ++ '"' :: t) = some (s, t) := by
  induction s with
  | nil =>
    intro t
    rw [show escBody [] ++ '"' :: t = '"' :: t from rfl]
    rw [parseStrLoop_cons, if_pos rfl]
  | cons c s' ih =>
    intro t
    rw [show escBody (c :: s') = escapeChar c ++ escBody s' from rfl, List.append_assoc]
    exact escapeChar_parse c _ _ _ (ih t)

/-- Rebuilding a string from its characters. -/
theorem asString_data (s : String) : s.data.asString = s := rfl

/-- Non-whitespace heads pass the whitespace skipper untouched. -/
theorem jsonWsDrop_not_ws (c : Char) (s : List Char) (h : jwsChar c = false) :
    jsonWsDrop (c :: s) = c :: s := by
  simp [jsonWsDrop, List.dropWhile_cons, h]

/-- The value parser ignores one leading space. -/
theorem parseJ_ws (f : Nat) (hf : 1 ≤ f) (w : List Char) :
    parseJ f (' ' :: w) = parseJ f w := by
  obtain ⟨g, rfl⟩ : ∃ g, f = g + 1 := ⟨f - 1, by omega⟩
  rw [parseJ]
  rw [parseJ]
  rw [show jsonWsDrop (' ' :: w) = jsonWsDrop w from rfl]

/-- Continuation of the value parser after an integer literal. -/
def intWrap : Option (Int × List Char) → Option (Json × List Char)
  | some (n, r) => some (.int n, r)
  | none => none

/-- Continuation of the value parser after a string body. -/
def strWrap : Option (List Char × List Char) → Option (Json × List Char)
  | some (cs, r) => some (.str cs.asString, r)
  | none => none

/-- Wrapping of an array tail behind its first item. -/
def arrWrap (x : Json) : Option (List Json × List Char) → Option (Json × List Char)
  | some (xs, r4) => some (.arr (x :: xs), r4)
  | none => none

/-- Continuation of an array after the opening bracket and first value. -/
def arrCont (f : Nat) : Option (Json × List Char) → Option (Json × List Char)
  | some (x, r3) => arrWrap x (parseArrTail f r3)
  | none => none

/-- Wrapping of an object tail behind its first entry. -/
def objWrap (k : List Char) (v : Json) :
    Option (List (String × Json) × List Char) → Option (Json × List Char)
  | some (kvs, r5) => some (.obj ((k.asString, v) :: kvs), r5)
  | none => none

/-- Continuation of an object after its first key and colon. -/
def kvCont (k : List Char) (f : Nat) : Option (Json × List Char) → Option (Json × List Char)
  | some (v, r4) => objWrap k v (parseObjTail f r4)
  | none => none

/-- Continuation of an object after the opening brace and quote. -/
def keyCont (f : Nat) : Option (List Char × List Char) → Option (Json × List Char)
  | some (k, r2) =>
    match jsonWsDrop r2 with
    | ':' :: r3 => kvCont k f (parseJ f r3)
    | _ => none
  | none => none

/-- Wrapping of the remaining-entry parse behind a decoded entry. -/
def objTailWrap (k : List Char) (v : Json) :
    Option (List (String × Json) × List Char) → Option (List (String × Json) × List Char)
  | some (kvs, r6) => some ((k.asString, v) :: kvs, r6)
  | none => none

/-- Continuation of the object-tail parser after a key and colon. -/
def objTailKV (k : List Char) (f : Nat) :
    Option (Json × List Char) → Option (List (String × Json) × List Char)
  | some (v, r5) => objTailWrap k v (parseObjTail f r5)
  | none => none

/-- Continuation of the object-tail parser after comma and quote. -/
def objTailKey (f : Nat) :
    Option (List Char × List Char) → Option (List (String × Json) × List Char)
  | some (k, r3) =>
    match jsonWsDrop r3 with
    | ':' :: r4 => objTailKV k f (parseJ f r4)
    | _ => none
  | none => none

/-- Wrapping of the remaining-item parse behind a decoded item. -/
def arrTailWrap (x : Json) : Option (List Json × List Char) → Option (List Json × List Char)
  | some (xs, r3) => some (x :: xs, r3)
  | none => none

/-- Continuation of the array-tail parser after a comma. -/
def arrTailCont (f : Nat) : Option (Json × List Char) → Option (List Json × List Char)
  | some (x, r2) => arrTailWrap x (parseArrTail f r2)
  | none => none

/-- The value parser on a null literal. -/
theorem parseJ_null (f : Nat) (rest : List Char) :
    parseJ (f + 1) ('n' :: 'u' :: 'l' :: 'l' :: rest) = some (.null, rest) := rfl

/-- The value parser on a true literal. -/
theorem parseJ_true (f : Nat) (rest : List Char) :
    parseJ (f + 1) ('t' :: 'r' :: 'u' :: 'e' :: rest) = some (.bool true, rest) := rfl

/-- The value parser on a false literal. -/
theorem parseJ_false (f : Nat) (rest : List Char) :
    parseJ (f + 1) ('f' :: 'a' :: 'l' :: 's' :: 'e' :: rest) = some (.bool false, rest) := rfl

/-- The value parser on a string literal. -/
theorem parseJ_quote (f : Nat) (z : List Char) :
    parseJ (f + 1) ('"' :: z) = strWrap (parseStrLoop z) := rfl

/-- The value parser on an empty array. -/
theorem parseJ_arr_nil (f : Nat) (rest : List Char) :
    parseJ (f + 1) ('[' :: ']' :: rest) = some (.arr [], rest) := rfl

/-- The value parser on an empty object. -/
theorem parseJ_obj_nil (f : Nat) (rest : List Char) :
    parseJ (f + 1) (Char.ofNat 123 :: Char.ofNat 125 :: rest) = some (.obj [], rest) := rfl

/-- The value parser on an object opened by brace and quote. -/
theorem parseJ_brace_key (f : Nat) (w : List Char) :
    parseJ (f + 1) (Char.ofNat 123 :: '"' :: w) = keyCont f (parseStrLoop w) := rfl

/-- The object continuation after the decoded key and a colon. -/
theorem keyCont_colon (f : Nat) (k r3 : List Char) :
    keyCont f (some (k, ':' :: r3)) = kvCont k f (parseJ f r3) := rfl

/-- The object continuation after the decoded first value. -/
theorem kvCont_some (k : List Char) (f : Nat) (v : Json) (r4 : List Char) :
    kvCont k f (some (v, r4)) = objWrap k v (parseObjTail f r4) := rfl

/-- The object wrapper on a successful tail parse. -/
theorem objWrap_some (k : List Char) (v : Json) (kvs : List (String × Json)) (r5 : List Char) :
    objWrap k v (some (kvs, r5)) = some (.obj ((k.asString, v) :: kvs), r5) := rfl

/-- The string wrapper on a successful body parse. -/
theorem strWrap_some (cs r : List Char) :
    strWrap (some (cs, r)) = some (.str cs.asString, r) := rfl

/-- The array continuation after the decoded first item. -/
theorem arrCont_some (f : Nat) (x : Json) (r3 : List Char) :
    arrCont f (some (x, r3)) = arrWrap x (parseArrTail f r3) := rfl

/-- The array wrapper on a successful tail parse. -/
theorem arrWrap_some (x : Json) (xs : List Json) (r4 : List Char) :
    arrWrap x (some (xs, r4)) = some (.arr (x :: xs), r4) := rfl

/-- The array-tail parser on a closing bracket. -/
theorem parseArrTail_close (f : Nat) (rest : List Char) :
    parseArrTail (f + 1) (']' :: rest) = some ([], rest) := rfl

/-- The array-tail parser on a comma. -/
theorem parseArrTail_comma (f : Nat) (r : List Char) :
    parseArrTail (f + 1) (',' :: r) = arrTailCont f (parseJ f r) := rfl

/-- The array-tail continuation after the decoded item. -/
theorem arrTailCont_some (f : Nat) (x : Json) (r2 : List Char) :
    arrTailCont f (some (x, r2)) = arrTailWrap x (parseArrTail f r2) := rfl

/-- The array-tail wrapper on a successful recursive parse. -/
theorem arrTailWrap_some (x : Json) (xs : List Json) (r3 : List Char) :
    arrTailWrap x (some (xs, r3)) = some (x :: xs, r3) := rfl

/-- The object-tail parser on a closing brace. -/
theorem parseObjTail_close (f : Nat) (rest : List Char) :
    parseObjTail (f + 1) (Char.ofNat 125 :: rest) = some ([], rest) := rfl

/-- The object-tail parser on comma, space and quote. -/
theorem parseObjTail_comma (f : Nat) (w : List Char) :
    parseObjTail (f + 1) (',' :: ' ' :: '"' :: w) = objTailKey f (parseStrLoop w) := rfl

/-- The object-tail continuation after the decoded key and a colon. -/
theorem objTailKey_colon (f : Nat) (k r4 : List Char) :
    objTailKey f (some (k, ':' :: r4)) = objTailKV k f (parseJ f r4) := rfl

/-- The object-tail continuation after the decoded value. -/
theorem objTailKV_some (k : List Char) (f : Nat) (v : Json) (r5 : List Char) :
    objTailKV k f (some (v, r5)) = objTailWrap k v (parseObjTail f r5) := rfl

/-- The object-tail wrapper on a successful recursive parse. -/
theorem objTailWrap_some (k : List Char) (v : Json) (kvs : List (String × Json))
    (r6 : List Char) :
    objTailWrap k v (some (kvs, r6)) = some ((k.asString, v) :: kvs, r6) := rfl

/-- The value parser falls through to the number parser on any other
non-whitespace head. -/
theorem parseJ_int_head (f : Nat) (c : Char) (rest : List Char)
    (h1 : ¬ c = 'n') (h2 : ¬ c = 't') (h3 : ¬ c = 'f') (h4 : ¬ c = '"')
    (h5 : ¬ c = '[') (h6 : ¬ c = Char.ofNat 123) (h7 : jwsChar c = false) :
    parseJ (f + 1) (c :: rest) = intWrap (parseIntJson (c :: rest)) := by
  rw [parseJ]
  rw [jsonWsDrop_not_ws c rest h7]
  simp only [if_neg h1, if_neg h2, if_neg h3, if_neg h4, if_neg h5, if_neg h6]
  rcases hpi : parseIntJson (c :: rest) with _ | ⟨n, r⟩ <;> rfl

/-- The value parser enters a non-empty array when a non-bracket character
follows the opening bracket. -/
theorem parseJ_arr_cons (f : Nat) (z : List Char) (c : Char) (w : List Char)
    (hz : jsonWsDrop z = c :: w) (hc : ¬ c = ']') :
    parseJ (f + 1) ('[' :: z) = arrCont f (parseJ f (c :: w)) := by
  rw [show parseJ (f + 1) ('[' :: z) =
    (match jsonWsDrop z with
     | ']' :: r => some (.arr [], r)
     | r2 => arrCont f (parseJ f r2)) from rfl]
  rw [hz]
  split
  · rename_i heq
    injection heq with e1 e2
    exact absurd e1 hc
  · rfl

/-- A character that renders a number is not any other token head, not
whitespace and not a closing bracket. -/
theorem num_head_clear (c : Char) (h : c = '-' ∨ c.isDigit = true) :
    (¬ c = 'n') ∧ (¬ c = 't') ∧ (¬ c = 'f') ∧ (¬ c = '"') ∧ (¬ c = '[') ∧
    (¬ c = Char.ofNat 123) ∧ jwsChar c = false ∧ (¬ c = ']') := by
  rcases h with rfl | h
  · exact ⟨by decide, by decide, by decide, by decide, by decide, by decide, by decide, by decide⟩
  · obtain ⟨hlo, hhi⟩ := isDigit_toNat c h
    refine ⟨fun hh => by subst hh; exact absurd hhi (by decide),
      fun hh => by subst hh; exact absurd hhi (by decide),
      fun hh => by subst hh; exact absurd hhi (by decide),
      fun hh => by subst hh; exact absurd hlo (by decide),
      fun hh => by subst hh; exact absurd hhi (by decide),
      fun hh => by subst hh; exact absurd hhi (by decide), ?_,
      fun hh => by subst hh; exact absurd hhi (by decide)⟩
    simp only [jwsChar, Bool.or_eq_false_iff, decide_eq_false_iff_not]
    exact ⟨⟨⟨fun hh => by subst hh; exact absurd hlo (by decide),
      fun hh => by subst hh; exact absurd hlo (by decide)⟩,
      fun hh => by subst hh; exact absurd hlo (by decide)⟩,
      fun hh => by subst hh; exact absurd hlo (by decide)⟩

/-- The rendered integer starts with a sign or a digit. -/
theorem intChars_head (n : Int) :
    ∃ c cs, intChars n = c :: cs ∧ (c = '-' ∨ c.isDigit = true) := by
  by_cases hneg : n < 0
  · exact ⟨'-', natChars n.natAbs, by rw [intChars, if_pos hneg], Or.inl rfl⟩
  · obtain ⟨hdig, hval, c, cs, hcons, hcd, hzero⟩ := natChars_spec n.toNat
    exact ⟨c, cs, by rw [intChars, if_neg hneg, hcons], Or.inr hcd⟩

/-- Serialized output starts with a character that is neither whitespace nor
a closing bracket. -/
theorem dumps_head (v : Json) :
    ∃ c cs, dumps v = c :: cs ∧ jwsChar c = false ∧ (¬ c = ']') := by
  cases v with
  | null => exact ⟨'n', _, rfl, by decide, by decide⟩
  | bool b =>
    cases b with
    | false => exact ⟨'f', _, rfl, by decide, by decide⟩
    | true => exact ⟨'t', _, rfl, by decide, by decide⟩
  | int n =>
    obtain ⟨c, cs, hc, hd⟩ := intChars_head n
    obtain ⟨_, _, _, _, _, _, g7, g8⟩ := num_head_clear c hd
    exact ⟨c, cs, by rw [show dumps (.int n) = intChars n from rfl, hc], g7, g8⟩
  | str s => exact ⟨'"', _, rfl, by decide, by decide⟩
  | arr xs =>
    cases xs with
    | nil => exact ⟨'[', _, rfl, by decide, by decide⟩
    | cons x xs => exact ⟨'[', _, rfl, by decide, by decide⟩
  | obj kvs =>
    cases kvs with
    | nil => exact ⟨Char.ofNat 123, _, rfl, by decide, by decide⟩
    | cons kv kvs => exact ⟨Char.ofNat 123, _, rfl, by decide, by decide⟩

/-- After a serialized array tail and its closing bracket the continuation
starts with a delimiter, if anything. -/
theorem delimOk_arrTail (xs : List Json) (rest : List Char) :
    delimOk (dumpsArrTail xs ++ ']' :: rest) := by
  cases xs with
  | nil => exact Or.inr ⟨']', rest, rfl, Or.inr (Or.inl rfl)⟩
  | cons x xs => exact Or.inr ⟨',', _, rfl, Or.inl rfl⟩

/-- After a serialized object tail and its closing brace the continuation
starts with a delimiter, if anything. -/
theorem delimOk_objTail (kvs : List (String × Json)) (rest : List Char) :
    delimOk (dumpsObjTail kvs ++ Char.ofNat 125 :: rest) := by
  cases kvs with
  | nil => exact Or.inr ⟨Char.ofNat 125, rest, rfl, Or.inr (Or.inr rfl)⟩
  | cons kv kvs => exact Or.inr ⟨',', _, rfl, Or.inl rfl⟩

/-- The fuel requirement of a value is positive. -/
theorem needJ_pos (v : Json) : 1 ≤ needJ v := by
  cases v with
  | null => rw [needJ]
  | bool b => rw [needJ]
  | int n => rw [needJ]
  | str s => rw [needJ]
  | arr xs =>
    cases xs with
    | nil => rw [needJ]
    | cons x xs => rw [needJ]; omega
  | obj kvs =>
    cases kvs with
    | nil => rw [needJ]
    | cons kv kvs => rw [needJ]; omega

/-- The fuel requirement of an array tail is positive. -/
theorem needTailA_pos (xs : List Json) : 1 ≤ needTailA xs := by
  cases xs with
  | nil => rw [needTailA]
  | cons x xs => rw [needTailA]; omega

/-- The fuel requirement of an object tail is positive. -/
theorem needTailO_pos (kvs : List (String × Json)) : 1 ≤ needTailO kvs := by
  cases kvs with
  | nil => rw [needTailO]
  | cons kv kvs => rw [needTailO]; omega

/-- The fuel-indexed parsers invert the serializers before a delimiter:
values, array tails and object tails simultaneously, by induction on the
fuel. -/
theorem parse_dumps_all : ∀ f : Nat,
    (∀ v rest, needJ v ≤ f → delimOk rest →
      parseJ f (dumps v ++ rest) = some (v, rest)) ∧
    (∀ xs rest, needTailA xs ≤ f → delimOk rest →
      parseArrTail f (dumpsArrTail xs ++ ']' :: rest) = some (xs, rest)) ∧
    (∀ kvs rest, needTailO kvs ≤ f → delimOk rest →
      parseObjTail f (dumpsObjTail kvs ++ Char.ofNat 125 :: rest) = some (kvs, rest)) := by
  intro f
  induction f with
  | zero =>
    refine ⟨fun v rest hn _ => absurd hn (by have := needJ_pos v; omega),
            fun xs rest hn _ => absurd hn (by have := needTailA_pos xs; omega),
            fun kvs rest hn _ => absurd hn (by have := needTailO_pos kvs; omega)⟩
  | succ f ih =>
    obtain ⟨ihJ, ihA, ihO⟩ := ih
    refine ⟨?_, ?_, ?_⟩
    · intro v rest hn hrest
      cases v with
      | null => exact parseJ_null f rest
      | bool b =>
        cases b with
        | false => exact parseJ_false f rest
        | true => exact parseJ_true f rest
      | int n =>
        obtain ⟨c, cs, hc, hd⟩ := intChars_head n
        obtain ⟨g1, g2, g3, g4, g5, g6, g7, _⟩ := num_head_clear c hd
        rw [show dumps (.int n) = intChars n from rfl, hc, List.cons_append,
          parseJ_int_head f c (cs ++ rest) g1 g2 g3 g4 g5 g6 g7,
          ← List.cons_append, ← hc, parseIntJson_intChars n rest hrest]
        rfl
      | str s =>
        rw [show dumps (.str s) ++ rest = '"' :: (escBody s.data ++ ('"' :: rest)) from by
          simp [dumps, escapeString]]
        rw [parseJ_quote, parseStrLoop_escBody, strWrap_some, asString_data]
      | arr xs =>
        cases xs with
        | nil => exact parseJ_arr_nil f rest
        | cons x xs =>
          obtain ⟨c, cs, hc, hw, hbr⟩ := dumps_head x
          rw [show dumps (.arr (x :: xs)) ++ rest =
              '[' :: (dumps x ++ (dumpsArrTail xs ++ (']' :: rest))) from by
            rw [show dumps (.arr (x :: xs)) = '[' :: (dumps x ++ dumpsArrTail xs) ++ [']']
              from rfl]
            simp]
          have hz2 : jsonWsDrop (dumps x ++ (dumpsArrTail xs ++ (']' :: rest))) =
              c :: (cs ++ (dumpsArrTail xs ++ (']' :: rest))) := by
            rw [hc, List.cons_append, jsonWsDrop_not_ws _ _ hw]
          rw [parseJ_arr_cons f _ c _ hz2 hbr]
          rw [show c :: (cs ++ (dumpsArrTail xs ++ (']' :: rest))) =
            dumps x ++ (dumpsArrTail xs ++ (']' :: rest)) from by rw [hc, List.cons_append]]
          have hnx : needJ x ≤ f := by rw [needJ] at hn; omega
          have hna : needTailA xs ≤ f := by rw [needJ] at hn; omega
          rw [ihJ x _ hnx (delimOk_arrTail xs rest), arrCont_some,
            ihA xs rest hna hrest, arrWrap_some]
      | obj kvs =>
        cases kvs with
        | nil => exact parseJ_obj_nil f rest
        | cons kv kvs =>
          rw [show dumps (.obj (kv :: kvs)) ++ rest =
              Char.ofNat 123 :: '"' :: (escBody kv.1.data ++
                ('"' :: (':' :: ' ' :: (dumps kv.2 ++
                  (dumpsObjTail kvs ++ (Char.ofNat 125 :: rest)))))) from by
            rw [show dumps (.obj (kv :: kvs)) = Char.ofNat 123 ::
              (escapeString kv.1 ++ ':' :: ' ' :: dumps kv.2 ++ dumpsObjTail kvs) ++
              [Char.ofNat 125] from rfl]
            simp [escapeString]]
          rw [parseJ_brace_key, parseStrLoop_escBody, keyCont_colon]
          have hf1 : 1 ≤ f := by
            have := needJ_pos kv.2
            rw [needJ] at hn
            omega
          rw [parseJ_ws f hf1]
          have hnv : needJ kv.2 ≤ f := by rw [needJ] at hn; omega
          have hno : needTailO kvs ≤ f := by rw [needJ] at hn; omega
          rw [ihJ kv.2 _ hnv (delimOk_objTail kvs rest), kvCont_some,
            ihO kvs rest hno hrest, objWrap_some, asString_data]
    · intro xs rest hn hrest
      cases xs with
      | nil => exact parseArrTail_close f rest
      | cons x xs =>
        rw [show dumpsArrTail (x :: xs) ++ ']' :: rest =
            ',' :: (' ' :: (dumps x ++ (dumpsArrTail xs ++ (']' :: rest)))) from by
          rw [show dumpsArrTail (x :: xs) = ',' :: ' ' :: dumps x ++ dumpsArrTail xs from rfl]
          simp]
        rw [parseArrTail_comma]
        have hf1 : 1 ≤ f := by
          have := needJ_pos x
          rw [needTailA] at hn
          omega
        rw [parseJ_ws f hf1]
        have hnx : needJ x ≤ f := by rw [needTailA] at hn; omega
        have hna : needTailA xs ≤ f := by rw [needTailA] at hn; omega
        rw [ihJ x _ hnx (delimOk_arrTail xs rest), arrTailCont_some,
          ihA xs rest hna hrest, arrTailWrap_some]
    · intro kvs rest hn hrest
      cases kvs with
      | nil => exact parseObjTail_close f rest
      | cons kv kvs =>
        rw [show dumpsObjTail (kv :: kvs) ++ Char.ofNat 125 :: rest =
            ',' :: ' ' :: '"' :: (escBody kv.1.data ++ ('"' :: (':' :: ' ' ::
              (dumps kv.2 ++ (dumpsObjTail kvs ++ (Char.ofNat 125 :: rest)))))) from by
          rw [show dumpsObjTail (kv :: kvs) = ',' :: ' ' :: escapeString kv.1 ++
            ':' :: ' ' :: dumps kv.2 ++ dumpsObjTail kvs from rfl]
          simp [escapeString]]
        rw [parseObjTail_comma, parseStrLoop_escBody, objTailKey_colon]
        have hf1 : 1 ≤ f := by
          have := needJ_pos kv.2
          rw [needTailO] at hn
          omega
        rw [parseJ_ws f hf1]
        have hnv : needJ kv.2 ≤ f := by rw [needTailO] at hn; omega
        have hno : needTailO kvs ≤ f := by rw [needTailO] at hn; omega
        rw [ihJ kv.2 _ hnv (delimOk_objTail kvs rest), objTailKV_some,
          ihO kvs rest hno hrest, objTailWrap_some, asString_data]

/-- The fuel requirement is within the serialized length plus one. -/
theorem needJ_le_length : ∀ n : Nat,
    (∀ v : Json, sizeOf v ≤ n → needJ v ≤ (dumps v).length + 1) ∧
    (∀ xs : List Json, sizeOf xs ≤ n → needTailA xs ≤ (dumpsArrTail xs).length + 1) ∧
    (∀ kvs : List (String × Json), sizeOf kvs ≤ n →
      needTailO kvs ≤ (dumpsObjTail kvs).length + 1) := by
  intro n
  induction n with
  | zero =>
    refine ⟨fun v h => absurd h ?_, fun xs h => absurd h ?_, fun kvs h => absurd h ?_⟩
    · cases v <;> simp
    · cases xs <;> simp
    · cases kvs <;> simp
  | succ n ih =>
    obtain ⟨ihJ, ihA, ihO⟩ := ih
    refine ⟨?_, ?_, ?_⟩
    · intro v hs
      cases v with
      | null => rw [needJ]; omega
      | bool b => rw [needJ]; omega
      | int m => rw [needJ]; omega
      | str s => rw [needJ]; omega
      | arr xs =>
        cases xs with
        | nil => rw [needJ]; omega
        | cons x xs =>
          simp at hs
          have bx := ihJ x (by omega)
          have ba := ihA xs (by omega)
          rw [needJ, show dumps (.arr (x :: xs)) =
            '[' :: (dumps x ++ dumpsArrTail xs) ++ [']'] from rfl]
          simp only [List.length_append, List.length_cons, List.length_nil]
          omega
      | obj kvs =>
        cases kvs with
        | nil => rw [needJ]; omega
        | cons kv kvs =>
          obtain ⟨k, v⟩ := kv
          simp at hs
          have bv := ihJ v (by omega)
          have bo := ihO kvs (by omega)
          rw [needJ, show dumps (.obj ((k, v) :: kvs)) = Char.ofNat 123 ::
            (escapeString k ++ ':' :: ' ' :: dumps v ++ dumpsObjTail kvs) ++
            [Char.ofNat 125] from rfl]
          simp only [List.length_append, List.length_cons, List.length_nil]
          omega
    · intro xs hs
      cases xs with
      | nil => rw [needTailA]; omega
      | cons x xs =>
        simp at hs
        have bx := ihJ x (by omega)
        have ba := ihA xs (by omega)
        rw [needTailA, show dumpsArrTail (x :: xs) =
          ',' :: ' ' :: dumps x ++ dumpsArrTail xs from rfl]
        simp only [List.length_append, List.length_cons, List.length_nil]
        omega
    · intro kvs hs
      cases kvs with
      | nil => rw [needTailO]; omega
      | cons kv kvs =>
        obtain ⟨k, v⟩ := kv
        simp at hs
        have bv := ihJ v (by omega)
        have bo := ihO kvs (by omega)
        rw [needTailO, show dumpsObjTail ((k, v) :: kvs) = ',' :: ' ' :: escapeString k ++
          ':' :: ' ' :: dumps v ++ dumpsObjTail kvs from rfl]
        simp only [List.length_append, List.length_cons, List.length_nil]
        omega

/-- The remainder check of `json_loads` after the parsed value. -/
def loadsCont : Option (Json × List Char) → Option Json
  | some (v, r) => if (jsonWsDrop r).isEmpty then some v else none
  | none => none

/-- `json.loads` inverts `json.dumps`. -/
theorem json_loads_dumps (v : Json) : json_loads (json_dumps v) = some v := by
  have hneed : needJ v ≤ (dumps v).length + 1 :=
    (needJ_le_length (sizeOf v)).1 v (le_refl _)
  have h1 : parseJ ((dumps v).length + 1) (dumps v ++ []) = some (v, []) :=
    (parse_dumps_all ((dumps v).length + 1)).1 v [] hneed (Or.inl rfl)
  rw [List.append_nil] at h1
  rw [show json_loads (json_dumps v) =
    loadsCont (parseJ ((dumps v).length + 1) (dumps v)) from rfl]
  rw [h1]
  rfl

/-- A successful inner decryption reaches deserialization. -/
theorem decrypt_data_ok (t : FernetToken) (id2 s : String)
    (h : decrypt_file t id2 = Except.ok s) :
    decrypt_data t id2 = decodePayload s := by
  unfold decrypt_data
  rw [h]

/-- A failed inner decryption propagates its error. -/
theorem decrypt_data_err (t : FernetToken) (id2 : String) (e : VaultError)
    (h : decrypt_file t id2 = Except.error e) :
    decrypt_data t id2 = Except.error e := by
  unfold decrypt_data
  rw [h]

/-- Deserialization of a parseable payload. -/
theorem decodePayload_some (s : String) (v : Json) (h : json_loads s = some v) :
    decodePayload s = Except.ok v := by
  unfold decodePayload
  rw [h]

/-- C3: for every JSON-representable payload and every assignment id,
decrypting the encryption under the same id returns the payload; the key
derivation is deterministic, the same `(salt, id)` pair giving the same key
on every call, so the round trip also holds across process restarts. -/
theorem vault_round_trip (p : Json) (id2 : String) :
    decrypt_data (encrypt_data p id2) id2 = Except.ok p := by
  have h0 : decrypt_file (encrypt_data p id2) id2 = Except.ok (json_dumps p) := by
    rw [decrypt_file,
      if_pos (show (encrypt_data p id2).key = generate_key_from_id id2 from rfl)]
    rfl
  rw [decrypt_data_ok _ _ _ h0, decodePayload_some _ _ (json_loads_dumps p)]

/-- C4: decryption under a different assignment id fails with the
authentication error, and a token whose key tag does not match the derived
key (a tampered or foreign ciphertext) fails the same way instead of
returning data. -/
theorem vault_wrong_id_fails (p : Json) (id1 id2 : String) (t : FernetToken)
    (h : ¬ id1 = id2) (ht : ¬ t.key = generate_key_from_id id2) :
    decrypt_data (encrypt_data p id1) id2 = Except.error VaultError.authenticationFailure ∧
    decrypt_data t id2 = Except.error VaultError.authenticationFailure := by
  constructor
  · refine decrypt_data_err _ _ _ ?_
    rw [decrypt_file, if_neg ?_]
    intro hh
    exact h (congrArg DerivedKey.password hh)
  · refine decrypt_data_err _ _ _ ?_
    rw [decrypt_file, if_neg ht]

/-- Witness: a null payload sealed under id `a` is refused under id `b`, as
is a token fabricated under an unrelated key. -/
theorem vault_wrong_id_fails_witness :
    decrypt_data (encrypt_data Json.null "a") "b" =
      Except.error VaultError.authenticationFailure ∧
    decrypt_data ⟨⟨"x", "y"⟩, "junk"⟩ "b" =
      Except.error VaultError.authenticationFailure :=
  vault_wrong_id_fails Json.null "a" "b" ⟨⟨"x", "y"⟩, "junk"⟩ (by decide) (by decide)
